import Mathlib

/-!
# Verification of the Taskmanagement-App task subsystem

A shallow embedding of the task-management code
(`taskmanagement_app/crud/task.py`, `taskmanagement_app/jobs/task_maintenance.py`,
`taskmanagement_app/api/v1/endpoints/tasks.py`, `taskmanagement_app/schemas/task.py`,
`taskmanagement_app/core/auth.py`) together with theorems about its behaviour.

Modelling conventions:
* Database rows of the `tasks` table become the structure `TaskRow`; the
  many-to-many association table `task_assigned_users` is flattened into the
  per-row field `assignedUsers` (the list of user ids associated to the row).
* Timestamps that the code only ever *writes* (`started_at`) are stored as
  their instant, a rational number of hours; timestamps that the code *reads
  back and parses* (`due_date`, `completed_at`) are stored as the raw strings
  kept in the database, and `datetime.fromisoformat` becomes an abstract
  parameter `parse : String → Option ℚ` (`none` models a raised
  `ValueError`/`TypeError`).  All durations are in hours.
* Task state and assignment type are the string values of the Python
  `TaskState` / `AssignmentType` string enums.
* A raised `HTTPException`/`ValueError`/`TaskStatusError` becomes the `error`
  case of `Except`; the store (database) is threaded explicitly.
-/

namespace TaskApp

/-- A row of the `tasks` table (`db/models/task.py`, `TaskModel`), with the
`task_assigned_users` association rows for this task flattened into
`assignedUsers`. -/
structure TaskRow where
  id : Nat
  title : String
  description : String
  state : String
  dueDate : Option String
  reward : Option String
  createdAt : Option String
  startedAt : Option ℚ
  completedAt : Option String
  createdBy : Nat
  assignmentType : String
  assignedTo : Option Nat
  assignedUsers : List Nat
  deriving DecidableEq

/-- `db.query(TaskModel).filter(TaskModel.id == task_id).first()`
(`crud/task.py`, `get_task`). -/
def lookupById (store : List TaskRow) (taskId : Nat) : Option TaskRow :=
  store.find? (fun r => r.id == taskId)

/-- In-place mutation of the row with the given primary key followed by
`db.commit()`: every row with that id is rewritten by `f` (ids are a primary
key, so at most one row is affected in any real store). -/
def updateById (store : List TaskRow) (taskId : Nat) (f : TaskRow → TaskRow) :
    List TaskRow :=
  store.map (fun r => if r.id = taskId then f r else r)

/-- Character-list version of `s.replace("Z", "+00:00")`: every occurrence
of the single-character pattern is replaced. -/
def replaceZchars : List Char → List Char
  | [] => []
  | c :: cs =>
      if c = 'Z' then '+' :: '0' :: '0' :: ':' :: '0' :: '0' :: replaceZchars cs
      else c :: replaceZchars cs

/-- `s.replace("Z", "+00:00")` as used before each `datetime.fromisoformat`
call in `crud/task.py` and `jobs/task_maintenance.py` (Python `str.replace`
replaces every occurrence). -/
def replaceZ (s : String) : String :=
  ⟨replaceZchars s.data⟩

/-- Python's `str.lower()`, character by character. -/
def lowerStr (s : String) : String :=
  ⟨s.data.map Char.toLower⟩

/-- Python's substring test `needle in hay`. -/
def containsSub (needle hay : String) : Bool :=
  decide (needle.data <:+: hay.data)

/-! ## `crud/task.py`: `get_tasks` -/

/-- The `or_(...)` visibility filter of `get_tasks` when `include_created` is
true: `assignment_type == any`, `assigned_to == user_id`,
`created_by == user_id`, or membership in the `task_assigned_users`
association. -/
def visibilityWithCreated (userId : Nat) (t : TaskRow) : Bool :=
  t.assignmentType == "any" || t.assignedTo == some userId ||
    t.createdBy == userId || t.assignedUsers.contains userId

/-- The `or_(...)` visibility filter of `get_tasks` when `include_created` is
false: the `created_by` disjunct is dropped. -/
def visibilityAssignedOnly (userId : Nat) (t : TaskRow) : Bool :=
  t.assignmentType == "any" || t.assignedTo == some userId ||
    t.assignedUsers.contains userId

/-- The ordering `TaskModel.due_date.asc().nulls_last()`: rows are sorted by
the raw `due_date` strings ascending, `NULL`s last. -/
def dueDateNullsLastLe (a b : TaskRow) : Bool :=
  match a.dueDate, b.dueDate with
  | none, none => true
  | none, some _ => false
  | some _, none => true
  | some x, some y => decide (x ≤ y)

/-- The `if user_id is not None:` block of `get_tasks`. -/
def applyVisibilityFilter (userId : Option Nat) (includeCreated : Bool)
    (tasks : List TaskRow) : List TaskRow :=
  match userId with
  | some u =>
      if includeCreated then tasks.filter (visibilityWithCreated u)
      else tasks.filter (visibilityAssignedOnly u)
  | none => tasks

/-- The `if state: ... elif not include_archived: ...` block of `get_tasks`. -/
def applyStateFilter (includeArchived : Bool) (state : Option String)
    (q1 : List TaskRow) : List TaskRow :=
  match state with
  | some s =>
      if s ≠ "" then q1.filter (fun (t : TaskRow) => t.state == s)
      else if !includeArchived then
        q1.filter (fun (t : TaskRow) => t.state != "archived")
      else q1
  | none =>
      if !includeArchived then
        q1.filter (fun (t : TaskRow) => t.state != "archived")
      else q1

/-- `get_tasks(db, skip, limit, include_archived, state, user_id,
include_created)` from `crud/task.py`.  The Python guard `if state:` is a
truthiness test, so both `None` and the empty string fall through to the
archived filter. -/
def get_tasks (tasks : List TaskRow) (skip : Nat) (limit : Nat)
    (includeArchived : Bool) (state : Option String) (userId : Option Nat)
    (includeCreated : Bool) : List TaskRow :=
  let q2 := applyStateFilter includeArchived state
    (applyVisibilityFilter userId includeCreated tasks)
  (((q2.insertionSort (fun a b => dueDateNullsLastLe a b = true)).drop skip).take
    limit)

/-- The spec's visibility rule, stated from the spec's words for comparison
with `get_tasks`: a task is visible to a restricted principal iff its
assignment type is `any`; or it is `one` and `assigned_to` is the principal;
or it is `some` and the principal belongs to the assigned-user set; or the
principal created it and `include_created` is set. -/
def specVisible (userId : Nat) (includeCreated : Bool) (t : TaskRow) : Prop :=
  t.assignmentType = "any" ∨
    (t.assignmentType = "one" ∧ t.assignedTo = some userId) ∨
    (t.assignmentType = "some" ∧ userId ∈ t.assignedUsers) ∨
    (t.createdBy = userId ∧ includeCreated = true)

/-- The assignment-consistency invariant enforced at creation time by
`TaskBase.validate_assignment_consistency` (`schemas/task.py`): `any` rows
carry no assignee, `one` rows carry exactly `assigned_to`, `some` rows carry a
non-empty assigned-user set and no `assigned_to`. -/
def assignmentConsistent (t : TaskRow) : Prop :=
  (t.assignmentType = "any" ∧ t.assignedTo = none ∧ t.assignedUsers = []) ∨
    (t.assignmentType = "one" ∧ (∃ a, t.assignedTo = some a) ∧
      t.assignedUsers = []) ∨
    (t.assignmentType = "some" ∧ t.assignedTo = none ∧ t.assignedUsers ≠ [])

/-- The non-visibility filters of `get_tasks` (state filter, else the
archived filter), as a predicate on a row. -/
def passesStateFilter (includeArchived : Bool) (state : Option String)
    (t : TaskRow) : Bool :=
  match state with
  | some s =>
      if s ≠ "" then t.state == s
      else if !includeArchived then t.state != "archived"
      else true
  | none => if !includeArchived then t.state != "archived" else true

/-! ## `api/v1/endpoints/tasks.py`: the `start` endpoint -/

/-- An `HTTPException(status_code, detail)`. -/
structure ApiError where
  status : Nat
  detail : String
  deriving DecidableEq

/-- The `POST /{task_id}/start` endpoint (`start_task` in
`api/v1/endpoints/tasks.py`) composed with the crud `start_task`
(`crud/task.py`): look the task up; 404 if absent; 400 naming the current and
required state unless the state is `todo`; otherwise set
`state = in_progress`, `started_at = now` and commit.  Returns the response
together with the store after the call. -/
def start_task_endpoint (now : ℚ) (store : List TaskRow) (taskId : Nat) :
    Except ApiError TaskRow × List TaskRow :=
  match lookupById store taskId with
  | none => (.error ⟨404, "Task not found"⟩, store)
  | some t =>
      if t.state ≠ "todo" then
        (.error ⟨400, "Cannot start task in state " ++ t.state ++
          ". Task must be in 'todo' state."⟩, store)
      else
        (.ok { t with state := "in_progress", startedAt := some now },
          updateById store taskId
            (fun r => { r with state := "in_progress", startedAt := some now }))

/-! ## `crud/task.py`: `weighted_random_choice` -/

/-- The weight computed by `weighted_random_choice` for a task whose due date
parses to `hoursRemaining` hours from now (`hours_remaining` in the code):
overdue tasks get `1000.0`; within 24 hours the weight interpolates from
`1000` down to `100`; within 168 hours (a week) from `100` down to `10`;
later `10.0 - min(9.0, hours_remaining / 336.0)`; and `max(1.0, weight)` is
applied at the end. -/
def hourWeight (hoursRemaining : ℚ) : ℚ :=
  let weight : ℚ :=
    if hoursRemaining ≤ 0 then 1000
    else if hoursRemaining ≤ 24 then 1000 - hoursRemaining / 24 * 900
    else if hoursRemaining ≤ 168 then 100 - (hoursRemaining - 24) / 144 * 90
    else 10 - min 9 (hoursRemaining / 336)
  max 1 weight

/-- The weight `weighted_random_choice` assigns to one task: `1.0` when
`due_date` is falsy or fails to parse (this call site passes `task.due_date`
to `fromisoformat` without the `Z` replacement), otherwise `hourWeight` of
the remaining hours.  The final `max(1.0, ·)` is inside `hourWeight`; the
falsy/invalid branches produce `1.0`, which `max` leaves unchanged. -/
def taskWeight (parse : String → Option ℚ) (now : ℚ) (t : TaskRow) : ℚ :=
  match t.dueDate with
  | none => max 1 1
  | some s =>
      if s = "" then max 1 1
      else
        match parse s with
        | none => max 1 1
        | some dueDate => hourWeight (dueDate - now)

/-- The weights list built by `weighted_random_choice` before calling
`random.choices(tasks, weights=weights, k=1)`; the random draw itself is not
modelled. -/
def weighted_random_choice_weights (parse : String → Option ℚ) (now : ℚ)
    (tasks : List TaskRow) : List ℚ :=
  tasks.map (taskWeight parse now)

/-! ## `crud/task.py`: `get_due_tasks` -/

/-- One task's contribution to the `due_tasks` list of `get_due_tasks`: the
task must have a truthy `due_date` that parses (after the `Z` replacement),
its state must be neither `done` nor `archived`, and the parsed due date must
satisfy `now <= due_date <= tomorrow` (with `tomorrow = now + 24` hours). -/
def dueEntry (parse : String → Option ℚ) (now : ℚ) (t : TaskRow) :
    Option (ℚ × TaskRow) :=
  match t.dueDate with
  | none => none
  | some s =>
      if s = "" then none
      else
        match parse (replaceZ s) with
        | none => none
        | some dueDate =>
            if (t.state ≠ "done" ∧ t.state ≠ "archived") ∧
                now ≤ dueDate ∧ dueDate ≤ now + 24 then
              some (dueDate, t)
            else none

/-- The write-back half of `get_due_tasks`: a task with a truthy `due_date`
that fails to parse has its `due_date` set to `None` and is committed; every
other task is untouched. -/
def clearInvalidDueDate (parse : String → Option ℚ) (t : TaskRow) : TaskRow :=
  match t.dueDate with
  | none => t
  | some s =>
      if s = "" then t
      else if (parse (replaceZ s)).isNone then { t with dueDate := none }
      else t

/-- `get_due_tasks(db)` from `crud/task.py`: iterate over the tasks with a
non-`NULL` `due_date` (the Python loop then also skips falsy — empty-string —
values), clear and commit unparseable due dates, collect the due tasks, and
return them sorted by parsed due date.  The result is the pair of the store
after the commits and the returned list. -/
def get_due_tasks (parse : String → Option ℚ) (now : ℚ)
    (store : List TaskRow) : List TaskRow × List TaskRow :=
  let store' := store.map (clearInvalidDueDate parse)
  let pairs := store.filterMap (dueEntry parse now)
  (store',
    (pairs.insertionSort (fun a b => decide (a.1 ≤ b.1))).map Prod.snd)

/-! ## `api/v1/endpoints/tasks.py`: the search endpoint -/

/-- `GET /search/` (`search_tasks` in `api/v1/endpoints/tasks.py`): fetch the
visible tasks via `get_tasks` (with its default `skip=0, limit=100`), build
`search_pattern = f"%{q}%".lower()` and keep the tasks whose lowered title or
description contains that pattern as a substring. -/
def search_tasks (q : String) (includeArchived : Bool)
    (userId : Option Nat) (store : List TaskRow) : List TaskRow :=
  let dbTasks := get_tasks store 0 100 includeArchived none userId true
  let searchPattern := lowerStr ("%" ++ q ++ "%")
  dbTasks.filter (fun t =>
    containsSub searchPattern (lowerStr t.title) ||
      containsSub searchPattern (lowerStr t.description))

/-! ## `core/auth.py` and the tasks router -/

/-- The claims of a decoded, signature-checked bearer token (the output of
`verify_access_token`; token decoding and expiry are outside the model). -/
structure TokenPayload where
  role : Option String
  sub : Option String
  deriving DecidableEq

/-- A row of the `users` table, reduced to what `get_current_user` reads. -/
structure UserRow where
  id : Nat
  email : String
  deriving DecidableEq

/-- `verify_not_superadmin` (`core/auth.py`): reject with 403 when the token
carries no role or the `superadmin` role, otherwise pass the payload
through.  The tasks router (`api/v1/endpoints/tasks.py`, line 35) runs this
on every request. -/
def verify_not_superadmin (payload : TokenPayload) :
    Except ApiError TokenPayload :=
  match payload.role with
  | none => .error ⟨403, "Not enough permissions"⟩
  | some r =>
      if r = "superadmin" then .error ⟨403, "Not enough permissions"⟩
      else .ok payload

/-- `get_current_user` (`core/auth.py`): admin/superadmin tokens (by role or
by subject) yield no user row; user tokens with an email-shaped subject are
looked up by email; anything else yields no user. -/
def get_current_user (adminUsername : String) (users : List UserRow)
    (payload : TokenPayload) : Option UserRow :=
  if payload.role = some "admin" ∨ payload.role = some "superadmin" ∨
      payload.sub = some "admin" ∨ payload.sub = some adminUsername then
    none
  else
    match payload.sub with
    | some s =>
        if s ≠ "" ∧ s.contains '@' then users.find? (fun u => u.email == s)
        else none
    | none => none

/-- `GET /tasks` (`read_tasks` in `api/v1/endpoints/tasks.py`): the router
first runs `verify_not_superadmin`; then `get_current_user` decides the
`user_id` passed to `get_tasks` (`None` for admin tokens, hence no
visibility filter). -/
def read_tasks (adminUsername : String) (users : List UserRow)
    (payload : TokenPayload) (store : List TaskRow) (skip limit : Nat)
    (includeArchived : Bool) (state : Option String) (includeCreated : Bool) :
    Except ApiError (List TaskRow) :=
  match verify_not_superadmin payload with
  | .error e => .error e
  | .ok _ =>
      let userId := (get_current_user adminUsername users payload).map (·.id)
      .ok (get_tasks store skip limit includeArchived state userId
        includeCreated)

/-! ## `crud/task.py`: `archive_task` -/

/-- `archive_task(db, task_id)` from `crud/task.py`: `None` (no change) when
the task is missing; a `TaskStatusError` when it is already archived or in a
state other than `done`/`todo`; otherwise set `state = archived` and
commit. -/
def archive_task (store : List TaskRow) (taskId : Nat) :
    Except String (List TaskRow) :=
  match lookupById store taskId with
  | none => .ok store
  | some t =>
      if t.state = "archived" then .error "Task is already archived"
      else if t.state ≠ "done" ∧ t.state ≠ "todo" then
        .error ("Cannot archive task in state " ++ t.state ++
          ". Task must be in 'done' or 'todo' state to be archived.")
      else .ok (updateById store taskId (fun r => { r with state := "archived" }))

/-! ## `jobs/task_maintenance.py` -/

/-- The loop body shared by `cleanup_old_tasks` and
`process_completed_tasks`, which differ only in their cutoff (`now - 24`
hours vs. `now - 168` hours): for each fetched task, re-read it
(`db.refresh`), and when its state is `done` and `completed_at` is truthy,
clear an unparseable `completed_at`, or archive the task when the parsed
`completed_at` is before the cutoff.  Both passes wrap the whole loop in one
`try`, so a raised exception ends the pass with the mutations made so far
(modelled by returning the current store). -/
def archiveLoop (parse : String → Option ℚ) (cutoff : ℚ) :
    List TaskRow → List TaskRow → List TaskRow
  | [], st => st
  | t :: rest, st =>
      match lookupById st t.id with
      | none => st
      | some cur =>
          if cur.state = "done" ∧ cur.completedAt.getD "" ≠ "" then
            match parse (replaceZ (cur.completedAt.getD "")) with
            | none =>
                archiveLoop parse cutoff rest
                  (updateById st cur.id (fun r => { r with completedAt := none }))
            | some completedAt =>
                if completedAt < cutoff then
                  match archive_task st cur.id with
                  | .error _ => st
                  | .ok st' => archiveLoop parse cutoff rest st'
                else archiveLoop parse cutoff rest st
          else archiveLoop parse cutoff rest st

/-- `cleanup_old_tasks(db)`: fetch the non-archived tasks (with `get_tasks`'
default `skip=0, limit=100`) and archive those completed more than **24
hours** before now. -/
def cleanup_old_tasks (parse : String → Option ℚ) (now : ℚ)
    (store : List TaskRow) : List TaskRow :=
  archiveLoop parse (now - 24) (get_tasks store 0 100 false none none true)
    store

/-- `process_completed_tasks(db)`: identical to `cleanup_old_tasks` except
that the cutoff is `now - timedelta(days=7)`, i.e. `now - 168` hours. -/
def process_completed_tasks (parse : String → Option ℚ) (now : ℚ)
    (store : List TaskRow) : List TaskRow :=
  archiveLoop parse (now - 168) (get_tasks store 0 100 false none none true)
    store

/-- The `task_update` dict `{"state": in_progress, "started_at": now}` that
`process_single_task` passes to `update_task`, applied to a row. -/
def startUpdate (now : ℚ) (r : TaskRow) : TaskRow :=
  { r with state := "in_progress", startedAt := some now }

/-- `process_single_task(db, task, printer, now, soon)`: refresh the task,
parse its due date (falsy `due_date` feeds `""` to the parser), and when the
due date is `<= soon`, print the task and — only if printing did not raise —
set `state = in_progress, started_at = now` through `update_task`.  The whole
body is inside one `try`, so a printer exception leaves the store unchanged.
The returned list accumulates the ids for which the printer was invoked. -/
def process_single_task (parse : String → Option ℚ)
    (printer : TaskRow → Except String Unit) (now soon : ℚ)
    (store : List TaskRow) (task : TaskRow) (printed : List Nat) :
    List TaskRow × List Nat :=
  match lookupById store task.id with
  | none => (store, printed)
  | some cur =>
      match parse (replaceZ (cur.dueDate.getD "")) with
      | none => (store, printed)
      | some dueDate =>
          if dueDate ≤ soon then
            match printer cur with
            | .error _ => (store, printed ++ [cur.id])
            | .ok _ =>
                (updateById store cur.id (startUpdate now),
                  printed ++ [cur.id])
          else (store, printed)

/-- The `for task in tasks:` loop of `process_due_tasks`: tasks with a falsy
`due_date` are skipped, the rest go through `process_single_task`. -/
def processDueLoop (parse : String → Option ℚ)
    (printer : TaskRow → Except String Unit) (now soon : ℚ) :
    List TaskRow → List TaskRow × List Nat → List TaskRow × List Nat
  | [], acc => acc
  | t :: rest, acc =>
      match t.dueDate with
      | none => processDueLoop parse printer now soon rest acc
      | some s =>
          if s = "" then processDueLoop parse printer now soon rest acc
          else
            processDueLoop parse printer now soon rest
              (process_single_task parse printer now soon acc.1 t acc.2)

/-- `process_due_tasks(db)`: run `get_due_tasks` (whose commits happen even
when nothing is due), return early on an empty due list or a failed printer
initialisation, otherwise process each due task with
`soon = now + timedelta(hours=6)`. -/
def process_due_tasks (parse : String → Option ℚ)
    (printer : TaskRow → Except String Unit) (printerInit : Bool) (now : ℚ)
    (store : List TaskRow) : List TaskRow × List Nat :=
  let res := get_due_tasks parse now store
  if res.2.isEmpty then (res.1, [])
  else if !printerInit then (res.1, [])
  else processDueLoop parse printer now (now + 6) res.2 (res.1, [])

/-- `run_maintenance()`: `cleanup_old_tasks`, then `process_completed_tasks`,
then `process_due_tasks`, on one session. -/
def run_maintenance (parse : String → Option ℚ)
    (printer : TaskRow → Except String Unit) (printerInit : Bool) (now : ℚ)
    (store : List TaskRow) : List TaskRow × List Nat :=
  process_due_tasks parse printer printerInit now
    (process_completed_tasks parse now (cleanup_old_tasks parse now store))

/-! ## `schemas/task.py`: `TaskUpdate`, and `crud/task.py`: `update_task`

`model_dump(exclude_unset=True)` distinguishes a field that was not provided
from one that was: the outer `Option` below is provided/unset.  For the
nullable columns (`due_date`, `reward`, `assigned_to`, `assigned_user_ids`)
the inner `Option` is the provided value, which may be `null`.  Explicit
`null`s for the non-nullable columns (`title`, `description`, `state`) are
excluded from the model: such a write dies at `db.commit()` with an integrity
error and never produces a row. -/

/-- The payload of a `PATCH /tasks/{id}` request after FastAPI has
instantiated `TaskUpdate` (`schemas/task.py`). -/
structure TaskUpdateInput where
  title : Option String := none
  description : Option String := none
  state : Option String := none
  dueDate : Option (Option String) := none
  reward : Option (Option String) := none
  assignmentType : Option String := none
  assignedTo : Option (Option Nat) := none
  assignedUserIds : Option (Option (List Nat)) := none
  deriving DecidableEq

/-- The validation `TaskUpdate` performs (`schemas/task.py`, lines 78–101):
`min_length=1` on `title` and `description`, the `Literal` constraints on
`state` and `assignment_type`, and the `validate_due_date` field validator.
`TaskUpdate` extends `BaseModel`, not `TaskBase`: it carries **no**
assignment-consistency validator. -/
def validateTaskUpdate (parse : String → Option ℚ) (u : TaskUpdateInput) :
    Except String TaskUpdateInput :=
  if (match u.title with | some t => decide (t.length < 1) | none => false) then
    .error "String should have at least 1 character"
  else if (match u.description with | some d => decide (d.length < 1) | none => false)
      then
    .error "String should have at least 1 character"
  else if (match u.state with
      | some s => !(["todo", "in_progress", "done", "archived"].contains s)
      | none => false) then
    .error "Input should be 'todo', 'in_progress', 'done' or 'archived'"
  else if (match u.assignmentType with
      | some a => !(["any", "some", "one"].contains a)
      | none => false) then
    .error "Input should be 'any', 'some' or 'one'"
  else
    match u.dueDate with
    | some (some s) =>
        if (parse (replaceZ s)).isNone then
          .error "Invalid date format. Must be ISO format (e.g. 2025-02-21T12:00:00Z)"
        else .ok u
    | _ => .ok u

/-- `validate_user_references(db, task_data)` (`crud/task.py`, lines 14–55)
restricted to the fields a `TaskUpdate` can carry: every provided, non-null
`assigned_to` and every id in a provided, non-null `assigned_user_ids` must
exist in the `users` table. -/
def validate_user_references (users : List Nat) (u : TaskUpdateInput) :
    Except String Unit :=
  let refs :=
    (match u.assignedTo with | some (some a) => [a] | _ => []) ++
      (match u.assignedUserIds with | some (some l) => l | _ => [])
  match refs.find? (fun r => !users.contains r) with
  | some r => .error ("User with ID " ++ toString r ++ " does not exist")
  | none => .ok ()

/-- The `setattr` loop of `update_task` over `model_dump(exclude_unset=True)`:
each provided field overwrites the column.  `assigned_user_ids` is set on the
instance but is not a mapped attribute of `TaskModel`, so the
`task_assigned_users` association rows (`assignedUsers`) are unchanged. -/
def applyUpdateFields (u : TaskUpdateInput) (r : TaskRow) : TaskRow :=
  let r1 := match u.title with | some v => { r with title := v } | none => r
  let r2 := match u.description with
    | some v => { r1 with description := v } | none => r1
  let r3 := match u.state with | some v => { r2 with state := v } | none => r2
  let r4 := match u.dueDate with
    | some v => { r3 with dueDate := v } | none => r3
  let r5 := match u.reward with
    | some v => { r4 with reward := v } | none => r4
  let r6 := match u.assignmentType with
    | some v => { r5 with assignmentType := v } | none => r5
  let r7 := match u.assignedTo with
    | some v => { r6 with assignedTo := v } | none => r6
  r7

/-- `update_task(db, task_id, task)` from `crud/task.py`: `None` when the
task does not exist; otherwise validate the user references and apply the
provided fields. -/
def update_task (users : List Nat) (store : List TaskRow) (taskId : Nat)
    (u : TaskUpdateInput) : Except String (Option (List TaskRow)) :=
  match lookupById store taskId with
  | none => .ok none
  | some _ =>
      match validate_user_references users u with
      | .error e => .error e
      | .ok _ => .ok (some (updateById store taskId (applyUpdateFields u)))

/-- `TaskBase.validate_assignment_consistency` (`schemas/task.py`, lines
27–65), the invariant check run at **create** time, as a function of the
three assignment values. -/
def validate_assignment_consistency (assignmentType : String)
    (assignedTo : Option Nat) (assignedUserIds : Option (List Nat)) :
    Except String Unit :=
  if assignmentType = "one" then
    if assignedTo = none then
      .error "assigned_to must be specified when assignment_type is 'one'"
    else if assignedUserIds.getD [] ≠ [] then
      .error "assigned_user_ids must be None or empty when assignment_type is 'one'"
    else .ok ()
  else if assignmentType = "some" then
    if assignedUserIds.getD [] = [] then
      .error "assigned_user_ids must be specified when assignment_type is 'some'"
    else if assignedTo ≠ none then
      .error "assigned_to must be None when assignment_type is 'some'"
    else .ok ()
  else if assignmentType = "any" then
    if assignedTo ≠ none then
      .error "assigned_to must be None when assignment_type is 'any'"
    else if assignedUserIds.getD [] ≠ [] then
      .error "assigned_user_ids must be None or empty when assignment_type is 'any'"
    else .ok ()
  else .ok ()

/-! ## Concrete fixtures used to instantiate theorems on closed inputs -/

/-- A concrete task row; closed instantiations modify it with structure
updates. -/
def sampleRow : TaskRow :=
  { id := 1, title := "Buy milk", description := "Get milk from the store",
    state := "todo", dueDate := none, reward := none, createdAt := none,
    startedAt := none, completedAt := none, createdBy := 1,
    assignmentType := "any", assignedTo := none, assignedUsers := [] }

/-- A concrete parse function built from a finite table: strings in the
table parse to their value, everything else raises. -/
def tableParse (table : List (String × ℚ)) : String → Option ℚ :=
  fun s => (table.find? (fun p => p.1 == s)).map (·.2)

/-- The update payload `TaskUpdate(assignment_type="one", assigned_to=None)`
sent by the repository's own test
`test_update_task_assignment_validation_errors` (Test 1), which expects a
`ValueError`. -/
def updOneNoAssignee : TaskUpdateInput :=
  { assignmentType := some "one", assignedTo := some none }

/-- A `todo` task with due-date string `"d1"`. -/
def todoRow : TaskRow := { sampleRow with dueDate := some "d1" }

/-- An `in_progress` task, started earlier, with due-date string `"d1"`. -/
def busyRow : TaskRow :=
  { sampleRow with id := 1, state := "in_progress", dueDate := some "d1", startedAt := some (-5) }

/-- A `todo` task with due-date string `"d2"`. -/
def overdueRow : TaskRow :=
  { sampleRow with id := 2, state := "todo", dueDate := some "d2" }

/-- A parse table mapping `"d1"` to one hour ahead and `"d2"` to one hour
ago (relative to `now = 0`). -/
def parseB : String → Option ℚ := tableParse [("d1", 1), ("d2", -1)]

/-- A `done` task whose completion timestamp string is `"c72"`. -/
def doneRow : TaskRow :=
  { sampleRow with state := "done", completedAt := some "c72" }

/-- A parse table mapping `"c72"` to instant 28 (72 hours before
`now = 100`). -/
def parseA : String → Option ℚ := tableParse [("c72", 28)]

/-- A printer that always succeeds. -/
def printerOk : TaskRow → Except String Unit := fun _ => .ok ()

/-- A printer that always raises. -/
def printerFail : TaskRow → Except String Unit := fun _ => .error "Printer error"

/-! ## Per-row outcomes of the maintenance loops (derived forms used in
theorem statements) -/

/-- The net effect of one `process_single_task` call on its own (current)
row. -/
def dueStep (parse : String → Option ℚ)
    (printer : TaskRow → Except String Unit) (now soon : ℚ) (cur : TaskRow) :
    TaskRow :=
  match parse (replaceZ (cur.dueDate.getD "")) with
  | none => cur
  | some dueDate =>
      if dueDate ≤ soon then
        match printer cur with
        | .error _ => cur
        | .ok _ => startUpdate now cur
      else cur

/-- Whether `process_single_task` invokes the printer on the row. -/
def duePrints (parse : String → Option ℚ) (soon : ℚ) (cur : TaskRow) : Bool :=
  match parse (replaceZ (cur.dueDate.getD "")) with
  | none => false
  | some dueDate => decide (dueDate ≤ soon)

/-- The net effect of one archive-pass iteration (`cleanup_old_tasks` /
`process_completed_tasks`) on its own (current) row. -/
def archiveStep (parse : String → Option ℚ) (cutoff : ℚ) (cur : TaskRow) :
    TaskRow :=
  if cur.state = "done" ∧ cur.completedAt.getD "" ≠ "" then
    match parse (replaceZ (cur.completedAt.getD "")) with
    | none => { cur with completedAt := none }
    | some completedAt =>
        if completedAt < cutoff then { cur with state := "archived" } else cur
  else cur

/-! ## Arithmetic facts about `hourWeight` -/

lemma hourWeight_nonpos {h : ℚ} (hh : h ≤ 0) : hourWeight h = 1000 := by
  simp only [hourWeight, if_pos hh]
  norm_num

lemma hourWeight_band1 {h : ℚ} (h0 : 0 < h) (h24 : h ≤ 24) :
    hourWeight h = 1000 - h / 24 * 900 := by
  have hne : ¬ h ≤ 0 := not_le.mpr h0
  simp only [hourWeight, if_neg hne, if_pos h24]
  refine max_eq_right ?_
  have e : h / 24 * 900 = h * (75 / 2) := by ring
  rw [e]; nlinarith

lemma hourWeight_band2 {h : ℚ} (h24 : 24 < h) (h168 : h ≤ 168) :
    hourWeight h = 100 - (h - 24) / 144 * 90 := by
  have hne : ¬ h ≤ 0 := by push_neg; linarith
  have hne24 : ¬ h ≤ 24 := not_le.mpr h24
  simp only [hourWeight, if_neg hne, if_neg hne24, if_pos h168]
  refine max_eq_right ?_
  have e : (h - 24) / 144 * 90 = (h - 24) * (5 / 8) := by ring
  rw [e]; nlinarith

lemma hourWeight_band3 {h : ℚ} (h168 : 168 < h) :
    hourWeight h = max 1 (10 - min 9 (h / 336)) := by
  have hne : ¬ h ≤ 0 := by push_neg; linarith
  have hne24 : ¬ h ≤ 24 := by push_neg; linarith
  have hne168 : ¬ h ≤ 168 := not_le.mpr h168
  simp only [hourWeight, if_neg hne, if_neg hne24, if_neg hne168]

lemma hourWeight_band1_lower {h : ℚ} (h0 : 0 < h) (h24 : h ≤ 24) :
    100 ≤ hourWeight h := by
  rw [hourWeight_band1 h0 h24]
  have e : h / 24 * 900 = h * (75 / 2) := by ring
  rw [e]; nlinarith

lemma hourWeight_band2_upper {h : ℚ} (h24 : 24 < h) (h168 : h ≤ 168) :
    hourWeight h < 100 := by
  rw [hourWeight_band2 h24 h168]
  have e : (h - 24) / 144 * 90 = (h - 24) * (5 / 8) := by ring
  rw [e]; nlinarith

lemma hourWeight_band2_lower {h : ℚ} (h24 : 24 < h) (h168 : h ≤ 168) :
    10 ≤ hourWeight h := by
  rw [hourWeight_band2 h24 h168]
  have e : (h - 24) / 144 * 90 = (h - 24) * (5 / 8) := by ring
  rw [e]; nlinarith

lemma hourWeight_band3_upper {h : ℚ} (h168 : 168 < h) : hourWeight h < 10 := by
  rw [hourWeight_band3 h168]
  have hpos : 0 < h / 336 := by positivity
  rcases le_total 9 (h / 336) with c | c
  · rw [min_eq_left c]; norm_num
  · rw [min_eq_right c]
    refine max_lt (by norm_num) (by linarith)

lemma hourWeight_pos (h : ℚ) : 1 ≤ hourWeight h := by
  unfold hourWeight
  exact le_max_left 1 _

lemma hourWeight_le_1000 (h : ℚ) : hourWeight h ≤ 1000 := by
  rcases le_or_lt h 0 with c | c
  · rw [hourWeight_nonpos c]
  rcases le_or_lt h 24 with c24 | c24
  · rw [hourWeight_band1 c c24]
    have e : h / 24 * 900 = h * (75 / 2) := by ring
    rw [e]; nlinarith
  rcases le_or_lt h 168 with c168 | c168
  · exact (hourWeight_band2_upper c24 c168).le.trans (by norm_num)
  · exact (hourWeight_band3_upper c168).le.trans (by norm_num)

lemma hourWeight_lt_1000 {h : ℚ} (h0 : 0 < h) : hourWeight h < 1000 := by
  rcases le_or_lt h 24 with c24 | c24
  · rw [hourWeight_band1 h0 c24]
    have e : h / 24 * 900 = h * (75 / 2) := by ring
    rw [e]; nlinarith
  rcases le_or_lt h 168 with c168 | c168
  · exact (hourWeight_band2_upper c24 c168).trans (by norm_num)
  · exact (hourWeight_band3_upper c168).trans (by norm_num)

lemma hourWeight_anti {h1 h2 : ℚ} (hle : h1 ≤ h2) :
    hourWeight h2 ≤ hourWeight h1 := by
  rcases le_or_lt h2 0 with c2 | c2
  · rw [hourWeight_nonpos c2, hourWeight_nonpos (hle.trans c2)]
  rcases le_or_lt h1 0 with c1 | c1
  · rw [hourWeight_nonpos c1]; exact hourWeight_le_1000 h2
  rcases le_or_lt h2 24 with d2 | d2
  · rw [hourWeight_band1 c2 d2, hourWeight_band1 c1 (hle.trans d2)]
    have e : ∀ x : ℚ, x / 24 * 900 = x * (75 / 2) := fun x => by ring
    rw [e, e]; nlinarith
  rcases le_or_lt h1 24 with d1 | d1
  · exact le_trans (by
      rcases le_or_lt h2 168 with e2 | e2
      · exact (hourWeight_band2_upper d2 e2).le
      · exact (hourWeight_band3_upper e2).le.trans (by norm_num))
      (hourWeight_band1_lower c1 d1)
  rcases le_or_lt h2 168 with e2 | e2
  · rw [hourWeight_band2 d2 e2, hourWeight_band2 d1 (hle.trans e2)]
    have e : ∀ x : ℚ, (x - 24) / 144 * 90 = (x - 24) * (5 / 8) := fun x => by
      ring
    rw [e, e]; nlinarith
  rcases le_or_lt h1 168 with e1 | e1
  · exact le_trans (hourWeight_band3_upper e2).le (hourWeight_band2_lower d1 e1)
  · rw [hourWeight_band3 e2, hourWeight_band3 e1]
    refine max_le_max le_rfl ?_
    have : min 9 (h1 / 336) ≤ min 9 (h2 / 336) :=
      min_le_min le_rfl (by linarith)
    linarith

lemma hourWeight_strict_in_band2 {h1 h2 : ℚ} (a1 : 24 < h1) (b1 : h1 ≤ 168)
    (b2 : h2 ≤ 168) (hlt : h1 < h2) : hourWeight h2 < hourWeight h1 := by
  rw [hourWeight_band2 a1 b1, hourWeight_band2 (a1.trans hlt) b2]
  have e : ∀ x : ℚ, (x - 24) / 144 * 90 = (x - 24) * (5 / 8) := fun x => by ring
  rw [e, e]; nlinarith

lemma hourWeight_band3_unclamped {h : ℚ} (a : 168 < h) (b : h ≤ 3024) :
    hourWeight h = 10 - h / 336 := by
  rw [hourWeight_band3 a, min_eq_right (by linarith : h / 336 ≤ 9),
    max_eq_right (by linarith : (1 : ℚ) ≤ 10 - h / 336)]

lemma hourWeight_band3_clamped {h : ℚ} (b : 3024 ≤ h) : hourWeight h = 1 := by
  rw [hourWeight_band3 (by linarith : (168 : ℚ) < h),
    min_eq_left (by linarith : (9 : ℚ) ≤ h / 336)]
  norm_num

/-- **C3.** The weight `weighted_random_choice` assigns to each candidate:
a task without a due date gets the baseline weight `1` (nonzero, the global
minimum); an overdue task (due date ≤ now, i.e. non-positive remaining
hours) gets weight `1000`, strictly above every non-overdue task; the weight
is monotonically non-increasing in the remaining time, strictly decreasing
across each pair of adjacent spec bands (within 24h, 48h, 72h, 7 days,
14 days, 30 days, beyond 30 days); and every weight is at least `1`, hence
strictly positive. -/
theorem weighted_random_choice_band_structure :
    (∀ parse now t, t.dueDate = none → taskWeight parse now t = 1) ∧
    (∀ h : ℚ, 1 ≤ hourWeight h) ∧
    (∀ h : ℚ, h ≤ 0 → hourWeight h = 1000) ∧
    (∀ h : ℚ, 0 < h → hourWeight h < 1000) ∧
    (∀ h1 h2 : ℚ, h1 ≤ h2 → hourWeight h2 ≤ hourWeight h1) ∧
    (∀ h1 h2 : ℚ, 0 < h1 → h1 ≤ 24 → 24 < h2 → h2 ≤ 48 →
      hourWeight h2 < hourWeight h1) ∧
    (∀ h1 h2 : ℚ, 24 < h1 → h1 ≤ 48 → 48 < h2 → h2 ≤ 72 →
      hourWeight h2 < hourWeight h1) ∧
    (∀ h1 h2 : ℚ, 48 < h1 → h1 ≤ 72 → 72 < h2 → h2 ≤ 168 →
      hourWeight h2 < hourWeight h1) ∧
    (∀ h1 h2 : ℚ, 72 < h1 → h1 ≤ 168 → 168 < h2 → h2 ≤ 336 →
      hourWeight h2 < hourWeight h1) ∧
    (∀ h1 h2 : ℚ, 168 < h1 → h1 ≤ 336 → 336 < h2 → h2 ≤ 720 →
      hourWeight h2 < hourWeight h1) ∧
    (∀ h1 h2 : ℚ, 336 < h1 → h1 ≤ 720 → 720 < h2 →
      hourWeight h2 < hourWeight h1) := by
  refine ⟨?_, hourWeight_pos, fun h hh => hourWeight_nonpos hh,
    fun h hh => hourWeight_lt_1000 hh, fun h1 h2 hle => hourWeight_anti hle,
    ?_, ?_, ?_, ?_, ?_, ?_⟩
  · intro parse now t ht
    simp [taskWeight, ht]
  · intro h1 h2 a1 b1 a2 b2
    exact lt_of_lt_of_le (hourWeight_band2_upper a2 (by linarith))
      (hourWeight_band1_lower a1 b1)
  · intro h1 h2 a1 b1 a2 b2
    exact hourWeight_strict_in_band2 a1 (by linarith) (by linarith)
      (by linarith)
  · intro h1 h2 a1 b1 a2 b2
    exact hourWeight_strict_in_band2 (by linarith) (by linarith) b2
      (by linarith)
  · intro h1 h2 a1 b1 a2 b2
    exact lt_of_lt_of_le (hourWeight_band3_upper a2)
      (hourWeight_band2_lower (by linarith) b1)
  · intro h1 h2 a1 b1 a2 b2
    rw [hourWeight_band3_unclamped a1 (by linarith),
      hourWeight_band3_unclamped (by linarith) (by linarith)]
    linarith
  · intro h1 h2 a1 b1 a2
    have e1 : hourWeight h1 = 10 - h1 / 336 :=
      hourWeight_band3_unclamped (by linarith) (by linarith)
    rcases le_total h2 3024 with c | c
    · rw [hourWeight_band3_unclamped (by linarith) c, e1]
      linarith
    · rw [hourWeight_band3_clamped c, e1]
      linarith

/-- Closed instantiation of `weighted_random_choice_band_structure`: a task
due in 36 hours weighs strictly less than one due in 12 hours, and every
weight stays at least 1. -/
theorem weighted_random_choice_band_structure_witness :
    hourWeight 36 < hourWeight 12 ∧ (1 : ℚ) ≤ hourWeight 36 := by
  obtain ⟨-, hpos, -, -, -, hpair, -⟩ := weighted_random_choice_band_structure
  exact ⟨hpair 12 36 (by norm_num) (by norm_num) (by norm_num) (by norm_num),
    hpos 36⟩

/-- **C2.** The public start operation: with the task found in the store,
it succeeds exactly when the state is `todo`, setting
`state = in_progress` and `started_at` to the (non-null) call instant, which
is at least the pre-call time; from any other state it returns a 400 error
whose detail names both the current and the required state and leaves the
store untouched — it never silently no-ops. -/
theorem start_task_endpoint_spec (now pre : ℚ) (store : List TaskRow)
    (taskId : Nat) (t : TaskRow) (hfound : lookupById store taskId = some t)
    (hpre : pre ≤ now) :
    (t.state = "todo" →
      start_task_endpoint now store taskId =
        (.ok { t with state := "in_progress", startedAt := some now },
          updateById store taskId
            (fun r => { r with state := "in_progress", startedAt := some now }))
        ∧ ({ t with state := "in_progress", startedAt := some now } : TaskRow).startedAt = some now
        ∧ pre ≤ now) ∧
    (t.state ≠ "todo" →
      start_task_endpoint now store taskId =
        (.error ⟨400, "Cannot start task in state " ++ t.state ++
          ". Task must be in 'todo' state."⟩, store) ∧
      containsSub t.state ("Cannot start task in state " ++ t.state ++
        ". Task must be in 'todo' state.") = true ∧
      containsSub "todo" ("Cannot start task in state " ++ t.state ++
        ". Task must be in 'todo' state.") = true) := by
  constructor
  · intro htodo
    refine ⟨?_, rfl, hpre⟩
    simp only [start_task_endpoint, hfound, htodo]
    simp
  · intro hne
    refine ⟨?_, ?_, ?_⟩
    · simp only [start_task_endpoint, hfound]
      rw [if_pos hne]
    · simp only [containsSub, decide_eq_true_eq]
      have e : ("Cannot start task in state " ++ t.state ++
          ". Task must be in 'todo' state.").data =
          "Cannot start task in state ".data ++ t.state.data ++
            ". Task must be in 'todo' state.".data := by
        rw [String.data_append, String.data_append]
      rw [e]
      exact List.infix_append _ _ _
    · simp only [containsSub, decide_eq_true_eq]
      have e : ("Cannot start task in state " ++ t.state ++
          ". Task must be in 'todo' state.").data =
          ("Cannot start task in state ".data ++ t.state.data) ++
            ". Task must be in 'todo' state.".data := by
        rw [String.data_append, String.data_append]
      rw [e]
      have h1 : "todo".data <:+: ". Task must be in 'todo' state.".data := by
        decide
      exact h1.trans (List.suffix_append _ _).isInfix

/-- Closed instantiation of `start_task_endpoint_spec`: starting the sample
`todo` task at time 5 succeeds and stamps `started_at = 5`. -/
theorem start_task_endpoint_spec_witness :
    start_task_endpoint 5 [sampleRow] 1 =
      (.ok { sampleRow with state := "in_progress", startedAt := some 5 },
        [{ sampleRow with state := "in_progress", startedAt := some 5 }]) := by
  have h := start_task_endpoint_spec 5 4 [sampleRow] 1 sampleRow (by decide)
    (by norm_num)
  exact ((h.1 rfl).1).trans (by rfl)

/-- **C9** (code bug): the search endpoint lowercases the SQL-LIKE pattern
`"%" + q + "%"` and then uses it in a plain substring test, so the query
`"milk"` fails to match the sample task even though `"milk"` *is* a
case-insensitive substring of its title and description and the task passes
every other filter (unrestricted principal, non-archived state). -/
theorem search_tasks_percent_bug :
    search_tasks "milk" false none [sampleRow] = [] ∧
    containsSub "milk" (lowerStr sampleRow.title) = true ∧
    containsSub "milk" (lowerStr sampleRow.description) = true ∧
    sampleRow.state ≠ "archived" := by
  decide

/-- **C7** (code bug): `TaskUpdate` carries no assignment-consistency
validator, so the payload `{assignment_type: "one", assigned_to: null}` —
which the repository's own test expects to raise `ValueError` — passes
validation, and `update_task` applies it, producing a row whose assignment
values the create-time validator `validate_assignment_consistency` rejects. -/
theorem update_task_skips_assignment_validation :
    validateTaskUpdate (tableParse []) updOneNoAssignee =
      .ok updOneNoAssignee ∧
    update_task [5] [sampleRow] 1 updOneNoAssignee =
      .ok (some [{ sampleRow with assignmentType := "one", assignedTo := none }]) ∧
    validate_assignment_consistency "one" none none =
      .error "assigned_to must be specified when assignment_type is 'one'" := by
  refine ⟨rfl, ?_, rfl⟩
  rfl

/-- **C10** (counterexample): a task whose `due_date` is the non-null but
unparseable empty string is *not* cleared by `get_due_tasks` — the Python
loop skips falsy due dates — contradicting the claim that every non-null
unparseable `due_date` is set to `None`. -/
theorem get_due_tasks_keeps_empty_string :
    (get_due_tasks (tableParse []) 0
        [{ sampleRow with dueDate := some "" }]).1 =
      [{ sampleRow with dueDate := some "" }] ∧
    ({ sampleRow with dueDate := some "" } : TaskRow).dueDate ≠ none ∧
    tableParse [] (replaceZ "") = none := by
  decide

/-- **C10** (amended): for every task whose `due_date` is non-null,
*non-empty* and unparseable (after the `Z` replacement), `get_due_tasks`
commits the row with `due_date` cleared to `None` and never returns the task
in the due list; tasks whose `due_date` is null, empty, or parseable are
written back unchanged. -/
theorem get_due_tasks_clears_invalid (parse : String → Option ℚ) (now : ℚ)
    (store : List TaskRow) :
    (∀ t ∈ store, ∀ s, t.dueDate = some s → s ≠ "" →
      parse (replaceZ s) = none →
      ({ t with dueDate := none } ∈ (get_due_tasks parse now store).1 ∧
        t ∉ (get_due_tasks parse now store).2)) ∧
    (∀ t ∈ store,
      (t.dueDate = none → t ∈ (get_due_tasks parse now store).1) ∧
      (∀ s, t.dueDate = some s → s = "" ∨ (parse (replaceZ s)).isSome →
        t ∈ (get_due_tasks parse now store).1)) := by
  constructor
  · intro t ht s hs hne hp
    constructor
    · have hclear : clearInvalidDueDate parse t = { t with dueDate := none } := by
        simp [clearInvalidDueDate, hs, hne, hp]
      have hmem := List.mem_map_of_mem (clearInvalidDueDate parse) ht
      rw [hclear] at hmem
      exact hmem
    · intro hmem
      simp only [get_due_tasks, List.mem_map] at hmem
      obtain ⟨pair, hpair, hsnd⟩ := hmem
      rw [List.mem_insertionSort] at hpair
      obtain ⟨a, _, ha⟩ := List.mem_filterMap.mp hpair
      have hat : a = t := by
        unfold dueEntry at ha
        split at ha
        · cases ha
        · split at ha
          · cases ha
          · split at ha
            · cases ha
            · split at ha
              · cases ha; exact hsnd
              · cases ha
      rw [hat] at ha
      unfold dueEntry at ha
      simp only [hs, hp, if_neg hne] at ha
      cases ha
  · intro t ht
    constructor
    · intro hdd
      have hclear : clearInvalidDueDate parse t = t := by
        simp [clearInvalidDueDate, hdd]
      have hmem := List.mem_map_of_mem (clearInvalidDueDate parse) ht
      rw [hclear] at hmem
      exact hmem
    · intro s hs hok
      have hclear : clearInvalidDueDate parse t = t := by
        rcases hok with he | hp
        · simp [clearInvalidDueDate, hs, he]
        · by_cases he : s = ""
          · simp [clearInvalidDueDate, hs, he]
          · simp [clearInvalidDueDate, hs, he, Option.isNone_iff_eq_none,
              Option.isSome_iff_ne_none.mp hp]
      have hmem := List.mem_map_of_mem (clearInvalidDueDate parse) ht
      rw [hclear] at hmem
      exact hmem

/-- Closed instantiation of `get_due_tasks_clears_invalid`: a task with the
unparseable due date `"bogus"` gets its due date cleared and is not due. -/
theorem get_due_tasks_clears_invalid_witness :
    { sampleRow with dueDate := none } ∈
      (get_due_tasks (tableParse []) 0
        [{ sampleRow with dueDate := some "bogus" }]).1 := by
  have h := (get_due_tasks_clears_invalid (tableParse []) 0
    [{ sampleRow with dueDate := some "bogus" }]).1
    { sampleRow with dueDate := some "bogus" } (by decide) "bogus" rfl
    (by decide) (by decide)
  exact h.1

/-! ## Membership in `get_tasks` -/

lemma mem_sortDropTake {l : List TaskRow} {limit : Nat} {t : TaskRow}
    (h : l.length ≤ limit) :
    t ∈ (((l.insertionSort
        (fun a b => dueDateNullsLastLe a b = true)).drop 0).take limit) ↔
      t ∈ l := by
  rw [List.drop_zero, List.take_of_length_le
    (by rw [List.length_insertionSort]; exact h)]
  exact List.mem_insertionSort _

lemma length_applyVisibilityFilter (uid : Option Nat) (ic : Bool)
    (tasks : List TaskRow) :
    (applyVisibilityFilter uid ic tasks).length ≤ tasks.length := by
  rcases uid with _ | u
  · simp [applyVisibilityFilter]
  · simp only [applyVisibilityFilter]
    cases ic <;> simp <;> exact List.length_filter_le _ _

lemma length_applyStateFilter (ia : Bool) (state : Option String)
    (q1 : List TaskRow) : (applyStateFilter ia state q1).length ≤ q1.length := by
  rcases state with _ | s
  · simp only [applyStateFilter]
    cases ia <;> simp <;> exact List.length_filter_le _ _
  · simp only [applyStateFilter]
    by_cases he : s ≠ ""
    · rw [if_pos he]; exact List.length_filter_le _ _
    · rw [if_neg he]
      cases ia <;> simp <;> exact List.length_filter_le _ _

lemma mem_applyStateFilter {ia : Bool} {state : Option String}
    {q1 : List TaskRow} {t : TaskRow} :
    t ∈ applyStateFilter ia state q1 ↔
      t ∈ q1 ∧ passesStateFilter ia state t = true := by
  rcases state with _ | s
  · simp only [applyStateFilter, passesStateFilter]
    cases ia <;> simp [List.mem_filter]
  · simp only [applyStateFilter, passesStateFilter]
    by_cases he : s ≠ ""
    · rw [if_pos he, if_pos he]
      simp [List.mem_filter]
    · rw [if_neg he, if_neg he]
      cases ia <;> simp [List.mem_filter]

lemma mem_applyVisibilityFilter {uid : Option Nat} {ic : Bool}
    {tasks : List TaskRow} {t : TaskRow} :
    t ∈ applyVisibilityFilter uid ic tasks ↔
      t ∈ tasks ∧
        (match uid with
         | some u => (if ic then visibilityWithCreated u t
            else visibilityAssignedOnly u t) = true
         | none => True) := by
  rcases uid with _ | u
  · simp [applyVisibilityFilter]
  · simp only [applyVisibilityFilter]
    cases ic <;> simp [List.mem_filter]

lemma mem_get_tasks {store : List TaskRow} {limit : Nat} {ia : Bool}
    {state : Option String} {uid : Option Nat} {ic : Bool} {t : TaskRow}
    (hlim : store.length ≤ limit) :
    t ∈ get_tasks store 0 limit ia state uid ic ↔
      t ∈ store ∧
        (match uid with
         | some u => (if ic then visibilityWithCreated u t
            else visibilityAssignedOnly u t) = true
         | none => True) ∧
        passesStateFilter ia state t = true := by
  unfold get_tasks
  rw [mem_sortDropTake (le_trans (length_applyStateFilter ia state _)
    (le_trans (length_applyVisibilityFilter uid ic store) hlim))]
  rw [mem_applyStateFilter, mem_applyVisibilityFilter]
  tauto

/-- Under the assignment-consistency invariant, the boolean visibility
filter of `get_tasks` coincides with the spec's visibility rule. -/
lemma visibility_bool_iff_spec {u : Nat} {ic : Bool} {t : TaskRow}
    (h : assignmentConsistent t) :
    ((if ic then visibilityWithCreated u t
      else visibilityAssignedOnly u t) = true) ↔ specVisible u ic t := by
  rcases h with ⟨h1, h2, h3⟩ | ⟨h1, ⟨a, h2⟩, h3⟩ | ⟨h1, h2, h3⟩ <;>
    cases ic <;>
      simp [visibilityWithCreated, visibilityAssignedOnly, specVisible,
        h1, h2, h3] <;>
    tauto

/-- **C1.** For a restricted principal `u` (with `skip = 0` and the store
within the page limit, and every stored row satisfying the
assignment-consistency invariant that task creation enforces), a task
appears in the `get_tasks` result iff it passes the state/archived filters
and is visible per the spec rule: `assignment_type = any`, or `one` with
`assigned_to = u`, or `some` with `u` in the assigned set, or created by `u`
with `include_created` true. -/
theorem get_tasks_restricted_visibility (store : List TaskRow) (limit : Nat)
    (ia : Bool) (state : Option String) (u : Nat) (ic : Bool) (t : TaskRow)
    (hcons : ∀ x ∈ store, assignmentConsistent x)
    (hlim : store.length ≤ limit) :
    t ∈ get_tasks store 0 limit ia state (some u) ic ↔
      (t ∈ store ∧ passesStateFilter ia state t = true) ∧
        specVisible u ic t := by
  rw [mem_get_tasks hlim]
  constructor
  · rintro ⟨ht, hvis, hst⟩
    exact ⟨⟨ht, hst⟩, (visibility_bool_iff_spec (hcons t ht)).mp hvis⟩
  · rintro ⟨⟨ht, hst⟩, hspec⟩
    exact ⟨ht, (visibility_bool_iff_spec (hcons t ht)).mpr hspec, hst⟩

/-- Closed instantiation of `get_tasks_restricted_visibility`: the sample
`assignment_type = any` task is listed for the unrelated principal 2. -/
theorem get_tasks_restricted_visibility_witness :
    sampleRow ∈ get_tasks [sampleRow] 0 100 false none (some 2) true := by
  refine (get_tasks_restricted_visibility [sampleRow] 100 false none 2 true
    sampleRow ?_ (by norm_num)).mpr
    ⟨⟨List.mem_singleton.mpr rfl, by decide⟩, Or.inl rfl⟩
  intro x hx
  rw [List.mem_singleton.mp hx]
  exact Or.inl ⟨rfl, rfl, rfl⟩

/-- **C8** (counterexample): a superadmin bearer token is rejected with 403
by the tasks router's `verify_not_superadmin` dependency, so a superadmin
caller *is* denied access to the task-listing endpoint, contrary to the
claim. -/
theorem read_tasks_superadmin_denied :
    read_tasks "root" [] ⟨some "superadmin", some "root"⟩ [sampleRow] 0 100
      false none true = .error ⟨403, "Not enough permissions"⟩ := by
  rfl

/-- **C8** (amended): a request with an `admin`-role token passes the
router's `verify_not_superadmin` guard, carries no user id
(`get_current_user` returns `None`), and receives all tasks matching the
other filters with no visibility restriction; a `superadmin` token, by
contrast, is rejected with 403 (see the counterexample). -/
theorem read_tasks_admin_unrestricted (adminUsername : String)
    (users : List UserRow) (payload : TokenPayload) (store : List TaskRow)
    (skip limit : Nat) (ia : Bool) (state : Option String) (ic : Bool)
    (hrole : payload.role = some "admin") :
    read_tasks adminUsername users payload store skip limit ia state ic =
      .ok (get_tasks store skip limit ia state none ic) ∧
    (store.length ≤ limit →
      ∀ t, t ∈ get_tasks store 0 limit ia state none ic ↔
        t ∈ store ∧ passesStateFilter ia state t = true) := by
  constructor
  · unfold read_tasks verify_not_superadmin get_current_user
    rw [hrole]
    simp
  · intro hlim t
    rw [mem_get_tasks hlim]
    tauto

/-- Closed instantiation of `read_tasks_admin_unrestricted`: an admin token
receives the unfiltered listing, which contains the sample task. -/
theorem read_tasks_admin_unrestricted_witness :
    read_tasks "root" [] ⟨some "admin", some "admin"⟩ [sampleRow] 0 100 false
        none true =
      .ok (get_tasks [sampleRow] 0 100 false none none true) ∧
    sampleRow ∈ get_tasks [sampleRow] 0 100 false none none true := by
  have h := read_tasks_admin_unrestricted "root" [] ⟨some "admin", some "admin"⟩
    [sampleRow] 0 100 false none true rfl
  exact ⟨h.1, (h.2 (by norm_num) sampleRow).mpr
    ⟨List.mem_singleton.mpr rfl, by decide⟩⟩

/-! ## Store lookups through maps and updates -/

lemma lookupById_map {g : TaskRow → TaskRow} (hg : ∀ r, (g r).id = r.id)
    (store : List TaskRow) (j : Nat) :
    lookupById (store.map g) j = (lookupById store j).map g := by
  induction store with
  | nil => rfl
  | cons r rest ih =>
      simp only [List.map_cons, lookupById, List.find?, hg r]
      by_cases h : (r.id == j)
      · simp [h]
      · simp only [h]
        simpa [lookupById] using ih

lemma lookupById_updateById {f : TaskRow → TaskRow}
    (hf : ∀ r, (f r).id = r.id) (store : List TaskRow) (i j : Nat) :
    lookupById (updateById store i f) j =
      if i = j then (lookupById store j).map f else lookupById store j := by
  have hg : ∀ r, ((fun r => if r.id = i then f r else r) r).id = r.id := by
    intro r
    by_cases h : r.id = i <;> simp [h, hf]
  rw [updateById, lookupById_map hg]
  rcases hfind : lookupById store j with _ | r
  · by_cases h : i = j <;> simp [h]
  · have hr : r.id = j := by
      have := List.find?_some hfind
      simpa using this
    by_cases h : i = j
    · subst h
      simp [hr]
    · have : ¬ r.id = i := by rw [hr]; exact fun hc => h hc.symm
      simp [this, h]

lemma lookupById_eq_self {store : List TaskRow}
    (hN : (store.map TaskRow.id).Nodup) {t : TaskRow} (ht : t ∈ store) :
    lookupById store t.id = some t := by
  induction store with
  | nil => cases ht
  | cons r rest ih =>
      rcases List.mem_cons.mp ht with h | h
      · subst h
        simp [lookupById, List.find?]
      · have hne : r.id ≠ t.id := by
          intro hc
          have : t.id ∈ rest.map TaskRow.id := List.mem_map_of_mem _ h
          rw [← hc] at this
          exact (List.nodup_cons.mp (by simpa using hN)).1 this
        simp only [lookupById, List.find?, beq_eq_false_iff_ne.mpr hne]
        exact ih (List.nodup_cons.mp (by simpa using hN)).2 h

lemma eq_of_mem_id_eq {store : List TaskRow}
    (hN : (store.map TaskRow.id).Nodup) {t u : TaskRow} (ht : t ∈ store)
    (hu : u ∈ store) (hid : u.id = t.id) : u = t := by
  have h1 := lookupById_eq_self hN ht
  have h2 := lookupById_eq_self hN hu
  rw [hid] at h2
  rw [h1] at h2
  exact (Option.some_injective _ h2).symm

/-! ## The due list of `get_due_tasks` -/

lemma dueEntry_some {parse : String → Option ℚ} {now : ℚ} {a : TaskRow}
    {pair : ℚ × TaskRow} (h : dueEntry parse now a = some pair) :
    pair.2 = a ∧ ∃ s, a.dueDate = some s ∧ s ≠ "" ∧
      parse (replaceZ s) = some pair.1 ∧
      (a.state ≠ "done" ∧ a.state ≠ "archived") ∧
      now ≤ pair.1 ∧ pair.1 ≤ now + 24 := by
  unfold dueEntry at h
  rcases hdd : a.dueDate with _ | s
  · simp only [hdd] at h
    cases h
  · simp only [hdd] at h
    by_cases he : s = ""
    · rw [if_pos he] at h
      cases h
    · rw [if_neg he] at h
      rcases hp : parse (replaceZ s) with _ | d
      · simp only [hp] at h
        cases h
      · simp only [hp] at h
        split at h
        · rename_i hcond
          injection h with h'
          subst h'
          exact ⟨rfl, s, rfl, he, hp, hcond.1, hcond.2.1, hcond.2.2⟩
        · cases h

lemma dueEntry_eq_some_of {parse : String → Option ℚ} {now : ℚ} {a : TaskRow}
    {s : String} {d : ℚ} (hdd : a.dueDate = some s) (hne : s ≠ "")
    (hp : parse (replaceZ s) = some d)
    (hcond : (a.state ≠ "done" ∧ a.state ≠ "archived") ∧
      now ≤ d ∧ d ≤ now + 24) :
    dueEntry parse now a = some (d, a) := by
  unfold dueEntry
  simp only [hdd, if_neg hne, hp, if_pos hcond]

lemma mem_due_list {parse : String → Option ℚ} {now : ℚ}
    {store : List TaskRow} {t : TaskRow} :
    t ∈ (get_due_tasks parse now store).2 ↔
      ∃ d, t ∈ store ∧ dueEntry parse now t = some (d, t) := by
  simp only [get_due_tasks, List.mem_map]
  constructor
  · rintro ⟨pair, hpair, hsnd⟩
    rw [List.mem_insertionSort] at hpair
    obtain ⟨a, ha, hde⟩ := List.mem_filterMap.mp hpair
    have hsnd2 := (dueEntry_some hde).1
    have hat : a = t := by rw [← hsnd, hsnd2]
    subst hat
    refine ⟨pair.1, ha, ?_⟩
    rw [hde]
    cases pair
    simp only at hsnd2 ⊢
    rw [hsnd2]
  · rintro ⟨d, ht, hde⟩
    exact ⟨(d, t), List.mem_insertionSort _ |>.mpr
      (List.mem_filterMap.mpr ⟨t, ht, hde⟩), rfl⟩

lemma due_snd_sublist (parse : String → Option ℚ) (now : ℚ)
    (store : List TaskRow) :
    List.Sublist ((store.filterMap (dueEntry parse now)).map Prod.snd)
      store := by
  induction store with
  | nil => simp
  | cons r rest ih =>
      rcases h : dueEntry parse now r with _ | pair
      · simp only [List.filterMap_cons, h]
        exact ih.cons r
      · simp only [List.filterMap_cons, h, List.map_cons]
        rw [(dueEntry_some h).1]
        exact ih.cons₂ r

lemma due_ids_nodup {parse : String → Option ℚ} {now : ℚ}
    {store : List TaskRow} (hN : (store.map TaskRow.id).Nodup) :
    (((get_due_tasks parse now store).2).map TaskRow.id).Nodup := by
  have hperm : List.Perm ((get_due_tasks parse now store).2)
      ((store.filterMap (dueEntry parse now)).map Prod.snd) := by
    simp only [get_due_tasks]
    exact (List.perm_insertionSort _ _).map Prod.snd
  have hsub := (due_snd_sublist parse now store).map TaskRow.id
  exact ((hperm.map TaskRow.id).nodup_iff).mpr (hN.sublist hsub)

lemma clearInvalidDueDate_id (parse : String → Option ℚ) (r : TaskRow) :
    (clearInvalidDueDate parse r).id = r.id := by
  unfold clearInvalidDueDate
  rcases h : r.dueDate with _ | s
  · rfl
  · by_cases he : s = ""
    · simp [he]
    · by_cases hp : (parse (replaceZ s)).isNone <;> simp [he, hp]

lemma clearInvalidDueDate_of_parses {parse : String → Option ℚ} {t : TaskRow}
    {s : String} {d : ℚ} (hs : t.dueDate = some s) (hne : s ≠ "")
    (hp : parse (replaceZ s) = some d) :
    clearInvalidDueDate parse t = t := by
  unfold clearInvalidDueDate
  simp [hs, hne, hp]

lemma store_after_due_lookup (parse : String → Option ℚ) (now : ℚ)
    (store : List TaskRow) (j : Nat) :
    lookupById (get_due_tasks parse now store).1 j =
      (lookupById store j).map (clearInvalidDueDate parse) := by
  simp only [get_due_tasks]
  exact lookupById_map (clearInvalidDueDate_id parse) store j

/-! ## The processing loop of `process_due_tasks` -/

lemma process_single_task_lookup (parse : String → Option ℚ)
    (printer : TaskRow → Except String Unit) (now soon : ℚ)
    (st : List TaskRow) (t : TaskRow) (printed : List Nat)
    (hcur : lookupById st t.id = some t) :
    lookupById (process_single_task parse printer now soon st t printed).1
        t.id = some (dueStep parse printer now soon t) ∧
    (∀ j, j ≠ t.id →
      lookupById (process_single_task parse printer now soon st t printed).1
        j = lookupById st j) ∧
    (process_single_task parse printer now soon st t printed).2 =
      printed ++ (if duePrints parse soon t then [t.id] else []) := by
  have hupd : ∀ r : TaskRow, (startUpdate now r).id = r.id := fun r => rfl
  unfold process_single_task dueStep duePrints
  rw [hcur]
  rcases hp : parse (replaceZ (t.dueDate.getD "")) with _ | d
  · simp only [hp]
    exact ⟨by rw [hcur], fun j _ => trivial, by simp⟩
  · simp only [hp]
    by_cases hle : d ≤ soon
    · rcases hpr : printer t with e | u
      · simp only [hpr, if_pos hle]
        refine ⟨by rw [hcur], ?_, by simp [hle]⟩
        intro j hj
        trivial
      · simp only [hpr, if_pos hle]
        refine ⟨?_, ?_, by simp [hle]⟩
        · rw [lookupById_updateById hupd, if_pos rfl, hcur]
          rfl
        · intro j hj
          rw [lookupById_updateById hupd, if_neg (fun hc => hj hc.symm)]
    · simp only [if_neg hle]
      refine ⟨by rw [hcur], ?_, by simp [hle]⟩
      intro j hj
      trivial

lemma processDueLoop_spec (parse : String → Option ℚ)
    (printer : TaskRow → Except String Unit) (now soon : ℚ)
    (l : List TaskRow) :
    ∀ (st : List TaskRow) (printed : List Nat),
      (∀ u ∈ l, lookupById st u.id = some u) →
      ((l.map TaskRow.id).Nodup) →
      (∀ u ∈ l, ∃ s, u.dueDate = some s ∧ s ≠ "") →
      (∀ u ∈ l,
        lookupById (processDueLoop parse printer now soon l (st, printed)).1
          u.id = some (dueStep parse printer now soon u)) ∧
      (∀ j, j ∉ l.map TaskRow.id →
        lookupById (processDueLoop parse printer now soon l (st, printed)).1 j
          = lookupById st j) ∧
      (processDueLoop parse printer now soon l (st, printed)).2 =
        printed ++ l.filterMap
          (fun u => if duePrints parse soon u then some u.id else none) := by
  induction l with
  | nil =>
      intro st printed _ _ _
      exact ⟨by simp, fun j _ => by simp [processDueLoop],
        by simp [processDueLoop]⟩
  | cons t rest ih =>
      intro st printed hpres hnd hdd
      obtain ⟨s, hs, hne⟩ := hdd t (List.mem_cons_self t rest)
      have hloop : processDueLoop parse printer now soon (t :: rest)
          (st, printed) = processDueLoop parse printer now soon rest
            (process_single_task parse printer now soon st t printed) := by
        simp only [processDueLoop, hs]
        rw [if_neg hne]
      have hsingle := process_single_task_lookup parse printer now soon st t
        printed (hpres t (List.mem_cons_self t rest))
      have hndc : (t.id :: rest.map TaskRow.id).Nodup := by
        rw [List.map_cons] at hnd
        exact hnd
      have htid : t.id ∉ rest.map TaskRow.id := (List.nodup_cons.mp hndc).1
      have hpres2 : ∀ u ∈ rest,
          lookupById (process_single_task parse printer now soon st t
            printed).1 u.id = some u := by
        intro u hu
        have hju : u.id ≠ t.id := by
          intro hc
          exact htid (hc ▸ List.mem_map_of_mem TaskRow.id hu)
        rw [hsingle.2.1 u.id hju]
        exact hpres u (List.mem_cons_of_mem t hu)
      have hnd2 : (rest.map TaskRow.id).Nodup := (List.nodup_cons.mp hndc).2
      have hdd2 : ∀ u ∈ rest, ∃ s, u.dueDate = some s ∧ s ≠ "" :=
        fun u hu => hdd u (List.mem_cons_of_mem t hu)
      obtain ⟨ih1, ih2, ih3⟩ :=
        ih (process_single_task parse printer now soon st t printed).1
          (process_single_task parse printer now soon st t printed).2
          hpres2 hnd2 hdd2
      rw [hloop]
      refine ⟨?_, ?_, ?_⟩
      · intro u hu
        rcases List.mem_cons.mp hu with h | h
        · subst h
          rw [ih2 u.id htid]
          exact hsingle.1
        · exact ih1 u h
      · intro j hj
        have hj1 : j ≠ t.id := by
          intro hc
          exact hj (by simp [hc])
        have hj2 : j ∉ rest.map TaskRow.id := by
          intro hc
          exact hj (by simp [hc])
        rw [ih2 j hj2]
        exact hsingle.2.1 j hj1
      · rw [ih3, hsingle.2.2, List.filterMap_cons]
        by_cases h : duePrints parse soon t
        · simp [h]
        · simp [h]

lemma process_due_tasks_eq_loop (parse : String → Option ℚ)
    (printer : TaskRow → Except String Unit) (now : ℚ)
    (store : List TaskRow) :
    process_due_tasks parse printer true now store =
      processDueLoop parse printer now (now + 6)
        (get_due_tasks parse now store).2
        ((get_due_tasks parse now store).1, []) := by
  simp only [process_due_tasks, Bool.not_true, Bool.false_eq_true, if_false]
  by_cases h : (get_due_tasks parse now store).2.isEmpty
  · rw [if_pos h]
    rw [List.isEmpty_iff.mp h]
    rfl
  · rw [if_neg h]

lemma printed_ids_iff {parse : String → Option ℚ}
    {now soon : ℚ} {store : List TaskRow}
    (hN : (store.map TaskRow.id).Nodup) {t : TaskRow} (ht : t ∈ store) :
    t.id ∈ (get_due_tasks parse now store).2.filterMap
        (fun u => if duePrints parse soon u then some u.id else none) ↔
      t ∈ (get_due_tasks parse now store).2 ∧
        duePrints parse soon t = true := by
  constructor
  · intro hm
    obtain ⟨u, hu, hif⟩ := List.mem_filterMap.mp hm
    by_cases hdp : duePrints parse soon u
    · rw [if_pos hdp] at hif
      injection hif with hid
      obtain ⟨d, hus, -⟩ := mem_due_list.mp hu
      have heq : u = t := eq_of_mem_id_eq hN ht hus hid
      subst heq
      exact ⟨hu, hdp⟩
    · rw [if_neg hdp] at hif
      cases hif
  · rintro ⟨hmem, hdp⟩
    exact List.mem_filterMap.mpr ⟨t, hmem, by rw [if_pos hdp]⟩

lemma process_due_tasks_lookup (parse : String → Option ℚ)
    (printer : TaskRow → Except String Unit) (now : ℚ)
    (store : List TaskRow) (hN : (store.map TaskRow.id).Nodup)
    (t : TaskRow) (ht : t ∈ store) :
    lookupById (process_due_tasks parse printer true now store).1 t.id =
      some (if t ∈ (get_due_tasks parse now store).2
        then dueStep parse printer now (now + 6) t
        else clearInvalidDueDate parse t) ∧
    (t.id ∈ (process_due_tasks parse printer true now store).2 ↔
      t ∈ (get_due_tasks parse now store).2 ∧
        duePrints parse (now + 6) t = true) := by
  have hpres : ∀ u ∈ (get_due_tasks parse now store).2,
      lookupById (get_due_tasks parse now store).1 u.id = some u := by
    intro u hu
    obtain ⟨d, hus, hde⟩ := mem_due_list.mp hu
    obtain ⟨-, s, hs, hne, hp, -⟩ := dueEntry_some hde
    rw [store_after_due_lookup, lookupById_eq_self hN hus]
    simp [clearInvalidDueDate_of_parses hs hne hp]
  have hdd : ∀ u ∈ (get_due_tasks parse now store).2,
      ∃ s, u.dueDate = some s ∧ s ≠ "" := by
    intro u hu
    obtain ⟨d, hus, hde⟩ := mem_due_list.mp hu
    obtain ⟨-, s, hs, hne, -⟩ := dueEntry_some hde
    exact ⟨s, hs, hne⟩
  obtain ⟨l1, l2, l3⟩ := processDueLoop_spec parse printer now (now + 6)
    (get_due_tasks parse now store).2 (get_due_tasks parse now store).1 []
    hpres (due_ids_nodup hN) hdd
  rw [process_due_tasks_eq_loop]
  by_cases hmem : t ∈ (get_due_tasks parse now store).2
  · rw [if_pos hmem]
    refine ⟨l1 t hmem, ?_⟩
    rw [l3]
    simp only [List.nil_append]
    exact printed_ids_iff hN ht
  · rw [if_neg hmem]
    have htid : t.id ∉ ((get_due_tasks parse now store).2).map TaskRow.id := by
      intro hc
      obtain ⟨u, hu, hid⟩ := List.mem_map.mp hc
      obtain ⟨d, hus, -⟩ := mem_due_list.mp hu
      exact hmem ((eq_of_mem_id_eq hN ht hus hid) ▸ hu)
    refine ⟨?_, ?_⟩
    · rw [l2 t.id htid, store_after_due_lookup, lookupById_eq_self hN ht]
      rfl
    · rw [l3]
      simp only [List.nil_append]
      rw [printed_ids_iff hN ht]

lemma dueEntry_eq_none_of {parse : String → Option ℚ} {now : ℚ} {t : TaskRow}
    {s : String} {d : ℚ} (hs : t.dueDate = some s) (hne : s ≠ "")
    (hp : parse (replaceZ s) = some d)
    (hc : ¬ ((t.state ≠ "done" ∧ t.state ≠ "archived") ∧
      now ≤ d ∧ d ≤ now + 24)) :
    dueEntry parse now t = none := by
  unfold dueEntry
  simp only [hs, if_neg hne, hp, if_neg hc]

lemma not_mem_due_of_entry_none {parse : String → Option ℚ} {now : ℚ}
    {store : List TaskRow} {t : TaskRow}
    (hde : dueEntry parse now t = none) :
    t ∉ (get_due_tasks parse now store).2 := by
  intro hmem
  obtain ⟨d', -, hde'⟩ := mem_due_list.mp hmem
  rw [hde] at hde'
  cases hde'

lemma mem_due_of_cond {parse : String → Option ℚ} {now : ℚ}
    {store : List TaskRow} {t : TaskRow} {s : String} {d : ℚ}
    (ht : t ∈ store) (hs : t.dueDate = some s) (hne : s ≠ "")
    (hp : parse (replaceZ s) = some d)
    (hc : (t.state ≠ "done" ∧ t.state ≠ "archived") ∧
      now ≤ d ∧ d ≤ now + 24) :
    t ∈ (get_due_tasks parse now store).2 :=
  mem_due_list.mpr ⟨d, ht, dueEntry_eq_some_of hs hne hp hc⟩

lemma dueStep_eval {parse : String → Option ℚ}
    {printer : TaskRow → Except String Unit} {now soon : ℚ} {t : TaskRow}
    {s : String} {d : ℚ} (hs : t.dueDate = some s)
    (hp : parse (replaceZ s) = some d) :
    dueStep parse printer now soon t =
      (if d ≤ soon then
        match printer t with
        | .error _ => t
        | .ok _ => startUpdate now t
      else t) := by
  unfold dueStep
  rw [hs]
  simp only [Option.getD_some, hp]

lemma duePrints_eval {parse : String → Option ℚ} {soon : ℚ} {t : TaskRow}
    {s : String} {d : ℚ} (hs : t.dueDate = some s)
    (hp : parse (replaceZ s) = some d) :
    duePrints parse soon t = decide (d ≤ soon) := by
  unfold duePrints
  rw [hs]
  simp only [Option.getD_some, hp]

/-- **C4** (amended).  In a maintenance run, Pass B prints and transitions
to `in_progress` (stamping `started_at = now`) exactly those tasks whose
state is neither `done` nor `archived` and whose parsed due date lies in
`[now, now + 6]` hours — the six-hour lookahead intersected with the due
query's `now ≤ due` bound, so *overdue tasks are not processed* — and it does
so regardless of a task being already `in_progress` (such a task is
re-printed and its `started_at` overwritten); the printer is invoked even
when it then raises, but the transition happens only on success; tasks
outside the window, and `done`/`archived` tasks, are untouched and not
printed. -/
theorem maintenance_pass_b (parse : String → Option ℚ)
    (printer : TaskRow → Except String Unit) (now : ℚ) (store : List TaskRow)
    (hN : (store.map TaskRow.id).Nodup) (t : TaskRow) (ht : t ∈ store)
    (s : String) (d : ℚ) (hs : t.dueDate = some s) (hne : s ≠ "")
    (hp : parse (replaceZ s) = some d) :
    ((t.state ≠ "done" ∧ t.state ≠ "archived") → now ≤ d → d ≤ now + 6 →
      (printer t = .ok () →
        lookupById (process_due_tasks parse printer true now store).1 t.id =
          some (startUpdate now t) ∧
        t.id ∈ (process_due_tasks parse printer true now store).2) ∧
      (∀ e, printer t = .error e →
        lookupById (process_due_tasks parse printer true now store).1 t.id =
          some t ∧
        t.id ∈ (process_due_tasks parse printer true now store).2)) ∧
    ((t.state ≠ "done" ∧ t.state ≠ "archived") → (d < now ∨ now + 6 < d) →
      lookupById (process_due_tasks parse printer true now store).1 t.id =
        some t ∧
      t.id ∉ (process_due_tasks parse printer true now store).2) ∧
    (t.state = "done" ∨ t.state = "archived" →
      lookupById (process_due_tasks parse printer true now store).1 t.id =
        some t ∧
      t.id ∉ (process_due_tasks parse printer true now store).2) := by
  obtain ⟨m1, m2⟩ := process_due_tasks_lookup parse printer now store hN t ht
  refine ⟨?_, ?_, ?_⟩
  · intro hst hlo hhi
    have hmem : t ∈ (get_due_tasks parse now store).2 :=
      mem_due_of_cond ht hs hne hp ⟨hst, hlo, by linarith⟩
    rw [if_pos hmem, dueStep_eval hs hp, if_pos hhi] at m1
    constructor
    · intro hok
      rw [hok] at m1
      exact ⟨m1, m2.mpr ⟨hmem, by rw [duePrints_eval hs hp]; simp [hhi]⟩⟩
    · intro e herr
      rw [herr] at m1
      exact ⟨m1, m2.mpr ⟨hmem, by rw [duePrints_eval hs hp]; simp [hhi]⟩⟩
  · intro hst hout
    rcases hout with hlt | hgt
    · have hmem : t ∉ (get_due_tasks parse now store).2 :=
        not_mem_due_of_entry_none (dueEntry_eq_none_of hs hne hp
          (by intro hc; linarith [hc.2.1]))
      rw [if_neg hmem, clearInvalidDueDate_of_parses hs hne hp] at m1
      refine ⟨m1, fun hc => hmem (m2.mp hc).1⟩
    · by_cases h24 : d ≤ now + 24
      · have hmem : t ∈ (get_due_tasks parse now store).2 :=
          mem_due_of_cond ht hs hne hp ⟨hst, by linarith, h24⟩
        rw [if_pos hmem, dueStep_eval hs hp,
          if_neg (by intro hc; linarith)] at m1
        refine ⟨m1, fun hc => ?_⟩
        have := (m2.mp hc).2
        rw [duePrints_eval hs hp] at this
        have : d ≤ now + 6 := of_decide_eq_true this
        linarith
      · have hmem : t ∉ (get_due_tasks parse now store).2 :=
          not_mem_due_of_entry_none (dueEntry_eq_none_of hs hne hp
            (by intro hc; exact h24 hc.2.2))
        rw [if_neg hmem, clearInvalidDueDate_of_parses hs hne hp] at m1
        refine ⟨m1, fun hc => hmem (m2.mp hc).1⟩
  · intro hst
    have hmem : t ∉ (get_due_tasks parse now store).2 :=
      not_mem_due_of_entry_none (dueEntry_eq_none_of hs hne hp
        (by rintro ⟨⟨hd, ha⟩, -⟩; rcases hst with h | h
            · exact hd h
            · exact ha h))
    rw [if_neg hmem, clearInvalidDueDate_of_parses hs hne hp] at m1
    refine ⟨m1, fun hc => hmem (m2.mp hc).1⟩

/-- **C4** (counterexample).  With `now = 0`, a printer that succeeds, an
`in_progress` task due in 1 hour and a `todo` task 1 hour overdue: the
`in_progress` task *is* printed again (the printed-id list is exactly `[1]`)
and its `started_at` is overwritten from `-5` to `0` — not an idempotent
no-op — while the overdue `todo` task is *not* printed and not transitioned,
contradicting both the skip clause and the "or already overdue" clause of
the claim. -/
theorem maintenance_pass_b_counterexample :
    busyRow.id = 1 ∧ busyRow.state = "in_progress" ∧
    busyRow.startedAt = some (-5) ∧
    (1 : Nat) ∈ (process_due_tasks parseB printerOk true 0
      [busyRow, overdueRow]).2 ∧
    lookupById (process_due_tasks parseB printerOk true 0
      [busyRow, overdueRow]).1 1 = some (startUpdate 0 busyRow) ∧
    startUpdate 0 busyRow ≠ busyRow ∧
    overdueRow.state = "todo" ∧ parseB (replaceZ "d2") = some (-1) ∧
    ((-1 : ℚ) < 0) ∧
    lookupById (process_due_tasks parseB printerOk true 0
      [busyRow, overdueRow]).1 2 = some overdueRow ∧
    (2 : Nat) ∉ (process_due_tasks parseB printerOk true 0
      [busyRow, overdueRow]).2 := by
  have hN : (([busyRow, overdueRow]).map TaskRow.id).Nodup := by decide
  have hp1 : parseB (replaceZ "d1") = some 1 := by decide
  have hp2 : parseB (replaceZ "d2") = some (-1) := by decide
  obtain ⟨m1, m2⟩ := process_due_tasks_lookup parseB printerOk 0
    [busyRow, overdueRow] hN busyRow (by decide)
  obtain ⟨n1, n2⟩ := process_due_tasks_lookup parseB printerOk 0
    [busyRow, overdueRow] hN overdueRow (by decide)
  have hmem : busyRow ∈ (get_due_tasks parseB 0 [busyRow, overdueRow]).2 :=
    mem_due_of_cond (by decide) rfl (by decide) hp1
      ⟨by decide, by norm_num, by norm_num⟩
  have hnmem : overdueRow ∉ (get_due_tasks parseB 0 [busyRow, overdueRow]).2 :=
    not_mem_due_of_entry_none (dueEntry_eq_none_of rfl (by decide) hp2
      (by rintro ⟨-, h, -⟩; norm_num at h))
  rw [if_pos hmem, dueStep_eval rfl hp1,
    if_pos (by norm_num : (1 : ℚ) ≤ 0 + 6)] at m1
  rw [if_neg hnmem, clearInvalidDueDate_of_parses rfl (by decide) hp2] at n1
  refine ⟨rfl, rfl, rfl, ?_, ?_, by decide, rfl, hp2, by norm_num, n1, ?_⟩
  · exact m2.mpr ⟨hmem, by rw [duePrints_eval rfl hp1]; simp⟩
  · exact m1
  · intro hc
    exact hnmem (n2.mp hc).1

/-- Closed instantiation of `maintenance_pass_b`: a `todo` task due in 1
hour is printed and transitioned with `started_at = 0`. -/
theorem maintenance_pass_b_witness :
    lookupById (process_due_tasks parseB printerOk true 0 [todoRow]).1 1 =
      some (startUpdate 0 todoRow) ∧
    (1 : Nat) ∈ (process_due_tasks parseB printerOk true 0 [todoRow]).2 := by
  have h := maintenance_pass_b parseB printerOk 0 [todoRow] (by decide)
    todoRow (by decide) "d1" 1 rfl (by decide) (by decide)
  have h1 := (h.1 (by decide) (by norm_num) (by norm_num)).1 rfl
  exact ⟨h1.1, h1.2⟩

/-- **C5.**  If the printer raises on a task of a maintenance run, that
task's row is completely unchanged after the run (its state, `started_at`
and every other field), and processing continues: every other due task in
the six-hour window on which the printer succeeds is still transitioned to
`in_progress` and printed. -/
theorem printer_failure_no_mutation (parse : String → Option ℚ)
    (printer : TaskRow → Except String Unit) (now : ℚ) (store : List TaskRow)
    (hN : (store.map TaskRow.id).Nodup) (t : TaskRow) (ht : t ∈ store)
    (s : String) (d : ℚ) (e : String) (hs : t.dueDate = some s)
    (hne : s ≠ "") (hp : parse (replaceZ s) = some d)
    (hfail : printer t = .error e) :
    lookupById (process_due_tasks parse printer true now store).1 t.id =
      some t ∧
    (∀ u ∈ store, u.id ≠ t.id → ∀ s' d', u.dueDate = some s' → s' ≠ "" →
      parse (replaceZ s') = some d' →
      (u.state ≠ "done" ∧ u.state ≠ "archived") →
      now ≤ d' → d' ≤ now + 6 → printer u = .ok () →
      lookupById (process_due_tasks parse printer true now store).1 u.id =
        some (startUpdate now u) ∧
      u.id ∈ (process_due_tasks parse printer true now store).2) := by
  constructor
  · obtain ⟨m1, -⟩ := process_due_tasks_lookup parse printer now store hN t ht
    by_cases hmem : t ∈ (get_due_tasks parse now store).2
    · rw [if_pos hmem, dueStep_eval hs hp] at m1
      rw [hfail] at m1
      by_cases hle : d ≤ now + 6
      · rwa [if_pos hle] at m1
      · rwa [if_neg hle] at m1
    · rwa [if_neg hmem, clearInvalidDueDate_of_parses hs hne hp] at m1
  · intro u hu hid s' d' hs' hne' hp' hst' hlo' hhi' hok
    obtain ⟨m1, m2⟩ := process_due_tasks_lookup parse printer now store hN u hu
    have hmem : u ∈ (get_due_tasks parse now store).2 :=
      mem_due_of_cond hu hs' hne' hp' ⟨hst', hlo', by linarith⟩
    rw [if_pos hmem, dueStep_eval hs' hp', if_pos hhi', hok] at m1
    exact ⟨m1, m2.mpr ⟨hmem, by rw [duePrints_eval hs' hp']; simp [hhi']⟩⟩

/-- Closed instantiation of `printer_failure_no_mutation`: with a failing
printer, the due `todo` task keeps all its fields. -/
theorem printer_failure_no_mutation_witness :
    lookupById (process_due_tasks parseB printerFail true 0 [todoRow]).1 1 =
      some todoRow := by
  have h := printer_failure_no_mutation parseB printerFail 0 [todoRow]
    (by decide) todoRow (by decide) "d1" 1 "Printer error" rfl (by decide)
    (by decide) rfl
  exact h.1

/-! ## The archiving passes of the maintenance job -/

lemma archiveStep_id (parse : String → Option ℚ) (cutoff : ℚ) (r : TaskRow) :
    (archiveStep parse cutoff r).id = r.id := by
  unfold archiveStep
  by_cases h : r.state = "done" ∧ r.completedAt.getD "" ≠ ""
  · rw [if_pos h]
    rcases parse (replaceZ (r.completedAt.getD "")) with _ | c
    · rfl
    · by_cases hc : c < cutoff <;> simp [hc]
  · rw [if_neg h]

lemma archive_task_of_done {st : List TaskRow} {t : TaskRow}
    (hcur : lookupById st t.id = some t) (hdone : t.state = "done") :
    archive_task st t.id =
      .ok (updateById st t.id (fun r => { r with state := "archived" })) := by
  unfold archive_task
  simp only [hcur]
  rw [if_neg (by rw [hdone]; decide)]
  rw [if_neg (by rw [hdone]; exact fun hc => hc.1 rfl)]

lemma archiveLoop_spec (parse : String → Option ℚ) (cutoff : ℚ)
    (l : List TaskRow) :
    ∀ st : List TaskRow,
      (∀ u ∈ l, lookupById st u.id = some u) →
      ((l.map TaskRow.id).Nodup) →
      (∀ u ∈ l, lookupById (archiveLoop parse cutoff l st) u.id =
        some (archiveStep parse cutoff u)) ∧
      (∀ j, j ∉ l.map TaskRow.id →
        lookupById (archiveLoop parse cutoff l st) j = lookupById st j) := by
  induction l with
  | nil =>
      intro st _ _
      exact ⟨by simp, fun j _ => by simp [archiveLoop]⟩
  | cons t rest ih =>
      intro st hpres hnd
      have hcur : lookupById st t.id = some t :=
        hpres t (List.mem_cons_self t rest)
      have hndc : (t.id :: rest.map TaskRow.id).Nodup := by
        rw [List.map_cons] at hnd
        exact hnd
      have htid : t.id ∉ rest.map TaskRow.id := (List.nodup_cons.mp hndc).1
      have hnd2 : (rest.map TaskRow.id).Nodup := (List.nodup_cons.mp hndc).2
      -- the store after the head iteration, and its effect on row t.id
      have harch : ∀ f : TaskRow → TaskRow, (∀ r, (f r).id = r.id) →
          (lookupById (updateById st t.id f) t.id = some (f t) ∧
            ∀ j, j ≠ t.id →
              lookupById (updateById st t.id f) j = lookupById st j) := by
        intro f hf
        constructor
        · rw [lookupById_updateById hf, if_pos rfl, hcur]
          rfl
        · intro j hj
          rw [lookupById_updateById hf, if_neg (fun hc => hj hc.symm)]
      have hstep : ∃ st', archiveLoop parse cutoff (t :: rest) st =
          archiveLoop parse cutoff rest st' ∧
          lookupById st' t.id = some (archiveStep parse cutoff t) ∧
          (∀ j, j ≠ t.id → lookupById st' j = lookupById st j) := by
        by_cases hg : t.state = "done" ∧ t.completedAt.getD "" ≠ ""
        · rcases hpc : parse (replaceZ (t.completedAt.getD "")) with _ | c
          · refine ⟨updateById st t.id
              (fun r => { r with completedAt := none }), ?_, ?_, ?_⟩
            · simp only [archiveLoop, hcur]
              rw [if_pos hg]
              simp only [hpc]
            · rw [(harch (fun r => { r with completedAt := none })
                (fun r => rfl)).1]
              unfold archiveStep
              rw [if_pos hg]
              simp only [hpc]
            · exact (harch (fun r => { r with completedAt := none })
                (fun r => rfl)).2
          · by_cases hcut : c < cutoff
            · refine ⟨updateById st t.id
                (fun r => { r with state := "archived" }), ?_, ?_, ?_⟩
              · simp only [archiveLoop, hcur]
                rw [if_pos hg]
                simp only [hpc, if_pos hcut, archive_task_of_done hcur hg.1]
              · rw [(harch (fun r => { r with state := "archived" })
                  (fun r => rfl)).1]
                unfold archiveStep
                rw [if_pos hg]
                simp only [hpc, if_pos hcut]
              · exact (harch (fun r => { r with state := "archived" })
                  (fun r => rfl)).2
            · refine ⟨st, ?_, ?_, fun j _ => rfl⟩
              · simp only [archiveLoop, hcur]
                rw [if_pos hg]
                simp only [hpc, if_neg hcut]
              · rw [hcur]
                unfold archiveStep
                rw [if_pos hg]
                simp only [hpc, if_neg hcut]
        · refine ⟨st, ?_, ?_, fun j _ => rfl⟩
          · simp only [archiveLoop, hcur]
            rw [if_neg hg]
          · rw [hcur]
            unfold archiveStep
            rw [if_neg hg]
      obtain ⟨st', hloop, hst'1, hst'2⟩ := hstep
      have hpres2 : ∀ u ∈ rest, lookupById st' u.id = some u := by
        intro u hu
        have hju : u.id ≠ t.id := by
          intro hc
          exact htid (hc ▸ List.mem_map_of_mem TaskRow.id hu)
        rw [hst'2 u.id hju]
        exact hpres u (List.mem_cons_of_mem t hu)
      obtain ⟨ih1, ih2⟩ := ih st' hpres2 hnd2
      rw [hloop]
      refine ⟨?_, ?_⟩
      · intro u hu
        rcases List.mem_cons.mp hu with h | h
        · subst h
          rw [ih2 u.id htid]
          exact hst'1
        · exact ih1 u h
      · intro j hj
        have hj1 : j ≠ t.id := fun hc => hj (by simp [hc])
        have hj2 : j ∉ rest.map TaskRow.id := fun hc => hj (by simp [hc])
        rw [ih2 j hj2]
        exact hst'2 j hj1

lemma applyVisibilityFilter_sublist (uid : Option Nat) (ic : Bool)
    (store : List TaskRow) :
    List.Sublist (applyVisibilityFilter uid ic store) store := by
  rcases uid with _ | u
  · simp [applyVisibilityFilter]
  · simp only [applyVisibilityFilter]
    cases ic <;> simp <;> exact List.filter_sublist _

lemma applyStateFilter_sublist (ia : Bool) (state : Option String)
    (q1 : List TaskRow) :
    List.Sublist (applyStateFilter ia state q1) q1 := by
  rcases state with _ | s
  · simp only [applyStateFilter]
    cases ia <;> simp <;> exact List.filter_sublist _
  · simp only [applyStateFilter]
    by_cases he : s ≠ ""
    · rw [if_pos he]
      exact List.filter_sublist _
    · rw [if_neg he]
      cases ia <;> simp <;> exact List.filter_sublist _

lemma get_tasks_ids_nodup {store : List TaskRow}
    (hN : (store.map TaskRow.id).Nodup) (skip limit : Nat) (ia : Bool)
    (state : Option String) (uid : Option Nat) (ic : Bool) :
    ((get_tasks store skip limit ia state uid ic).map TaskRow.id).Nodup := by
  unfold get_tasks
  have hq2 : List.Sublist (applyStateFilter ia state
      (applyVisibilityFilter uid ic store)) store :=
    (applyStateFilter_sublist ia state _).trans
      (applyVisibilityFilter_sublist uid ic store)
  have h2 : ((applyStateFilter ia state
      (applyVisibilityFilter uid ic store)).map TaskRow.id).Nodup :=
    hN.sublist (hq2.map TaskRow.id)
  have h3 : (((applyStateFilter ia state
      (applyVisibilityFilter uid ic store)).insertionSort
        (fun a b => dueDateNullsLastLe a b = true)).map TaskRow.id).Nodup :=
    (((List.perm_insertionSort _ _).map TaskRow.id).nodup_iff).mpr h2
  refine h3.sublist (List.Sublist.map TaskRow.id ?_)
  exact (List.take_sublist _ _).trans (List.drop_sublist _ _)

lemma updateById_map_id {f : TaskRow → TaskRow}
    (hf : ∀ r, (f r).id = r.id) (st : List TaskRow) (i : Nat) :
    (updateById st i f).map TaskRow.id = st.map TaskRow.id := by
  unfold updateById
  rw [List.map_map]
  refine List.map_congr_left ?_
  intro r _
  by_cases h : r.id = i <;> simp [h, hf]

lemma archive_task_map_id {st st' : List TaskRow} {i : Nat}
    (h : archive_task st i = .ok st') :
    st'.map TaskRow.id = st.map TaskRow.id := by
  unfold archive_task at h
  rcases hc : lookupById st i with _ | cur
  · simp only [hc] at h
    injection h with h'
    rw [← h']
  · simp only [hc] at h
    split at h
    · cases h
    · split at h
      · cases h
      · injection h with h'
        rw [← h']
        exact @updateById_map_id (fun r => { r with state := "archived" })
          (fun r => rfl) st i

lemma archiveLoop_map_id (parse : String → Option ℚ) (cutoff : ℚ)
    (l : List TaskRow) :
    ∀ st : List TaskRow,
      (archiveLoop parse cutoff l st).map TaskRow.id = st.map TaskRow.id := by
  induction l with
  | nil => intro st; rfl
  | cons t rest ih =>
      intro st
      simp only [archiveLoop]
      rcases hcur : lookupById st t.id with _ | cur
      · simp only [hcur]
      · simp only [hcur]
        by_cases hg : cur.state = "done" ∧ cur.completedAt.getD "" ≠ ""
        · rw [if_pos hg]
          rcases hpc : parse (replaceZ (cur.completedAt.getD "")) with _ | c
          · simp only [hpc]
            rw [ih]
            exact @updateById_map_id (fun r => { r with completedAt := none })
              (fun r => rfl) st cur.id
          · simp only [hpc]
            by_cases hcut : c < cutoff
            · rw [if_pos hcut]
              rcases harc : archive_task st cur.id with e | st'
              · simp only [harc]
              · simp only [harc]
                rw [ih st']
                exact archive_task_map_id harc
            · rw [if_neg hcut]
              exact ih st
        · rw [if_neg hg]
          exact ih st

lemma archive_pass_lookup (parse : String → Option ℚ) (cutoff : ℚ)
    (store : List TaskRow) (hN : (store.map TaskRow.id).Nodup)
    (hlim : store.length ≤ 100) (t : TaskRow) (ht : t ∈ store) :
    lookupById (archiveLoop parse cutoff
        (get_tasks store 0 100 false none none true) store) t.id =
      some (archiveStep parse cutoff t) := by
  have hmeml : ∀ u, u ∈ get_tasks store 0 100 false none none true ↔
      u ∈ store ∧ passesStateFilter false none u = true := by
    intro u
    rw [mem_get_tasks hlim]
    tauto
  have hpres : ∀ u ∈ get_tasks store 0 100 false none none true,
      lookupById store u.id = some u :=
    fun u hu => lookupById_eq_self hN ((hmeml u).mp hu).1
  have hndl : ((get_tasks store 0 100 false none none true).map
      TaskRow.id).Nodup := get_tasks_ids_nodup hN 0 100 false none none true
  obtain ⟨p1, p2⟩ := archiveLoop_spec parse cutoff
    (get_tasks store 0 100 false none none true) store hpres hndl
  by_cases harch : t.state = "archived"
  · have htnot : t ∉ get_tasks store 0 100 false none none true := by
      intro hc
      have := ((hmeml t).mp hc).2
      simp [passesStateFilter, harch] at this
    have htid : t.id ∉ (get_tasks store 0 100 false none none true).map
        TaskRow.id := by
      intro hc
      obtain ⟨u, hu, hid⟩ := List.mem_map.mp hc
      exact htnot ((eq_of_mem_id_eq hN ht ((hmeml u).mp hu).1 hid) ▸ hu)
    rw [p2 t.id htid, lookupById_eq_self hN ht]
    unfold archiveStep
    rw [if_neg (by rw [harch]; exact fun hc => absurd hc.1 (by decide))]
  · have htl : t ∈ get_tasks store 0 100 false none none true :=
      (hmeml t).mpr ⟨ht, by simp [passesStateFilter, harch]⟩
    exact p1 t htl

lemma archiveStep_of_not_guard {parse : String → Option ℚ} {cutoff : ℚ}
    {t : TaskRow} (h : ¬ (t.state = "done" ∧ t.completedAt.getD "" ≠ "")) :
    archiveStep parse cutoff t = t := by
  unfold archiveStep
  rw [if_neg h]

lemma archiveStep_of_clear {parse : String → Option ℚ} {cutoff : ℚ}
    {t : TaskRow} (hg : t.state = "done" ∧ t.completedAt.getD "" ≠ "")
    (hpc : parse (replaceZ (t.completedAt.getD "")) = none) :
    archiveStep parse cutoff t = { t with completedAt := none } := by
  unfold archiveStep
  rw [if_pos hg]
  simp only [hpc]

lemma archiveStep_of_archive {parse : String → Option ℚ} {cutoff c : ℚ}
    {t : TaskRow} (hg : t.state = "done" ∧ t.completedAt.getD "" ≠ "")
    (hpc : parse (replaceZ (t.completedAt.getD "")) = some c)
    (hcut : c < cutoff) :
    archiveStep parse cutoff t = { t with state := "archived" } := by
  unfold archiveStep
  rw [if_pos hg]
  simp only [hpc, if_pos hcut]

lemma archiveStep_of_keep {parse : String → Option ℚ} {cutoff c : ℚ}
    {t : TaskRow} (hg : t.state = "done" ∧ t.completedAt.getD "" ≠ "")
    (hpc : parse (replaceZ (t.completedAt.getD "")) = some c)
    (hcut : ¬ c < cutoff) :
    archiveStep parse cutoff t = t := by
  unfold archiveStep
  rw [if_pos hg]
  simp only [hpc, if_neg hcut]

lemma archiveStep_absorb (parse : String → Option ℚ) (now : ℚ)
    (t : TaskRow) :
    archiveStep parse (now - 168) (archiveStep parse (now - 24) t) =
      archiveStep parse (now - 24) t := by
  by_cases hg : t.state = "done" ∧ t.completedAt.getD "" ≠ ""
  · rcases hpc : parse (replaceZ (t.completedAt.getD "")) with _ | c
    · rw [archiveStep_of_clear hg hpc]
      exact archiveStep_of_not_guard (by simp)
    · by_cases hcut : c < now - 24
      · rw [archiveStep_of_archive hg hpc hcut]
        refine archiveStep_of_not_guard ?_
        rintro ⟨h, -⟩
        simp at h
      · rw [archiveStep_of_keep hg hpc hcut]
        refine archiveStep_of_keep hg hpc ?_
        intro hc
        exact hcut (by linarith)
  · rw [archiveStep_of_not_guard hg]
    exact archiveStep_of_not_guard hg

lemma maintenance_archive_lookup (parse : String → Option ℚ) (now : ℚ)
    (store : List TaskRow) (hN : (store.map TaskRow.id).Nodup)
    (hlim : store.length ≤ 100) (t : TaskRow) (ht : t ∈ store) :
    lookupById (process_completed_tasks parse now
        (cleanup_old_tasks parse now store)) t.id =
      some (archiveStep parse (now - 24) t) := by
  have h1 : lookupById (cleanup_old_tasks parse now store) t.id =
      some (archiveStep parse (now - 24) t) :=
    archive_pass_lookup parse (now - 24) store hN hlim t ht
  have hids : (cleanup_old_tasks parse now store).map TaskRow.id =
      store.map TaskRow.id :=
    archiveLoop_map_id parse (now - 24) _ store
  have hN2 : ((cleanup_old_tasks parse now store).map TaskRow.id).Nodup := by
    rw [hids]
    exact hN
  have hlen2 : (cleanup_old_tasks parse now store).length ≤ 100 := by
    have hlen := congrArg List.length hids
    rw [List.length_map, List.length_map] at hlen
    rw [hlen]
    exact hlim
  have hmem2 : archiveStep parse (now - 24) t ∈
      cleanup_old_tasks parse now store := List.mem_of_find?_eq_some h1
  have h2 := archive_pass_lookup parse (now - 168)
    (cleanup_old_tasks parse now store) hN2 hlen2 _ hmem2
  rw [archiveStep_id] at h2
  unfold process_completed_tasks
  rw [h2, archiveStep_absorb]

/-- **C6** (amended).  The maintenance run's archiving passes
(`cleanup_old_tasks` followed by `process_completed_tasks`, on a store of at
most 100 rows — `get_tasks`' default page) archive exactly the non-archived
tasks whose state is `done` and whose parseable `completed_at` is more than
**24 hours** old — `cleanup_old_tasks`' cutoff, not the claimed 7 days; a
`done` task completed within 24 hours stays `done`; tasks in other states
(including already-archived tasks) are untouched; a `done` task with an
unparseable `completed_at` has `completed_at` cleared to `None`. -/
theorem maintenance_pass_a (parse : String → Option ℚ) (now : ℚ)
    (store : List TaskRow) (hN : (store.map TaskRow.id).Nodup)
    (hlim : store.length ≤ 100) (t : TaskRow) (ht : t ∈ store) :
    lookupById (process_completed_tasks parse now
        (cleanup_old_tasks parse now store)) t.id =
      some (archiveStep parse (now - 24) t) ∧
    (∀ c, t.state = "done" → t.completedAt = some c → c ≠ "" →
      (∀ a, parse (replaceZ c) = some a →
        (a < now - 24 →
          archiveStep parse (now - 24) t = { t with state := "archived" }) ∧
        (now - 24 ≤ a → archiveStep parse (now - 24) t = t)) ∧
      (parse (replaceZ c) = none →
        archiveStep parse (now - 24) t = { t with completedAt := none })) ∧
    (t.state ≠ "done" → archiveStep parse (now - 24) t = t) ∧
    (t.completedAt = none → archiveStep parse (now - 24) t = t) ∧
    (t.completedAt = some "" → archiveStep parse (now - 24) t = t) := by
  refine ⟨maintenance_archive_lookup parse now store hN hlim t ht,
    ?_, ?_, ?_, ?_⟩
  · intro c hdone hcomp hcne
    have hg : t.state = "done" ∧ t.completedAt.getD "" ≠ "" := by
      rw [hdone, hcomp]
      exact ⟨rfl, hcne⟩
    have hrepl : t.completedAt.getD "" = c := by
      rw [hcomp]
      rfl
    constructor
    · intro a hpa
      constructor
      · intro hlt
        exact archiveStep_of_archive hg (by rw [hrepl]; exact hpa) hlt
      · intro hge
        exact archiveStep_of_keep hg (by rw [hrepl]; exact hpa)
          (not_lt.mpr hge)
    · intro hpn
      exact archiveStep_of_clear hg (by rw [hrepl]; exact hpn)
  · intro hnd
    refine archiveStep_of_not_guard ?_
    rintro ⟨h, -⟩
    exact hnd h
  · intro hnone
    refine archiveStep_of_not_guard ?_
    rintro ⟨-, h⟩
    rw [hnone] at h
    exact h rfl
  · intro hemp
    refine archiveStep_of_not_guard ?_
    rintro ⟨-, h⟩
    rw [hemp] at h
    exact h rfl

/-- **C6** (counterexample).  At `now = 100`, a `done` task completed 72
hours ago — 3 days, squarely inside the claimed 7-day retention window — is
archived by the maintenance run: `cleanup_old_tasks` uses a 24-hour cutoff,
so the task does not "remain done" as the claim requires. -/
theorem maintenance_pass_a_counterexample :
    doneRow.state = "done" ∧ doneRow.completedAt = some "c72" ∧
    parseA (replaceZ "c72") = some 28 ∧
    ((100 : ℚ) - 7 * 24) < 28 ∧
    lookupById (process_completed_tasks parseA 100
        (cleanup_old_tasks parseA 100 [doneRow])) 1 =
      some { doneRow with state := "archived" } := by
  have h := maintenance_archive_lookup parseA 100 [doneRow] (by decide)
    (by norm_num) doneRow (by decide)
  have hpc : parseA (replaceZ (doneRow.completedAt.getD "")) = some 28 := by
    decide
  have hstep : archiveStep parseA (100 - 24) doneRow =
      { doneRow with state := "archived" } :=
    archiveStep_of_archive ⟨rfl, by decide⟩ hpc (by norm_num)
  rw [hstep] at h
  exact ⟨rfl, rfl, by decide, by norm_num, h⟩

/-- Closed instantiation of `maintenance_pass_a`: at `now = 40`, the same
task — completed only 12 hours earlier — stays `done` through the run. -/
theorem maintenance_pass_a_witness :
    lookupById (process_completed_tasks parseA 40
        (cleanup_old_tasks parseA 40 [doneRow])) 1 = some doneRow := by
  have h := maintenance_pass_a parseA 40 [doneRow] (by decide) (by norm_num)
    doneRow (by decide)
  have hkeep := ((h.2.1 "c72" rfl rfl (by decide)).1 28 (by decide)).2
    (by norm_num)
  have h1 := h.1
  rw [hkeep] at h1
  exact h1

end TaskApp
